import Mathlib

/-!
Shallow embedding of the `bevy_app_compute` worker engine
(`src/worker.rs`, `src/worker_builder.rs`, `src/pipeline_cache.rs`)
and proofs about its step sequencer, state machine, buffer registry,
pipeline table and readback surface.

Modelling conventions:
* `bevy::utils::HashMap<String, V>` is modelled as an association list
  `List (String × V)` with first-match lookup and replace-on-insert;
  keys are unique in every map the engine builds.
* GPU-side objects (buffers, compiled pipelines, command encoders) are
  modelled by their observable data: a `Buffer` is an allocation id plus
  its byte contents, a compiled `ComputePipeline` is an id (`Nat`), a
  `CommandEncoder` is the list of commands recorded into it, and the
  render queue is the list of submitted command buffers.
* `Result<T, Error>` becomes `Except Error T`.  Rust panics
  (`unwrap`/`expect`/`panic!`/index out of bounds/`get_many_mut` returning
  `None` before `unwrap`) are modelled as `Error.Panic` inside step
  functions, and as `Option.none` at the level of entry points that can
  only fail by panicking.
* `RenderDevice::poll` asks the external device whether the submitted
  work completed; the device's answer is passed in as a `Bool` argument.
-/

namespace BevyAppCompute

/-- A GPU buffer allocation (`wgpu::Buffer`): an allocation identity plus its
byte contents; `size` is the byte length. -/
structure Buffer where
  id : Nat
  data : List Nat
deriving DecidableEq, Repr

/-- Byte size of a buffer (`wgpu::Buffer::size`). -/
def Buffer.size (b : Buffer) : Nat := b.data.length

/-- `StagingBuffer` from `src/worker.rs`: a host-mappable buffer plus the
`mapped` bookkeeping flag. -/
structure StagingBuffer where
  mapped : Bool
  buffer : Buffer
deriving DecidableEq, Repr

/-- `ComputePass` from `src/worker.rs`: workgroup dispatch size, ordered
binding variable names, and the shader type path identifying the pipeline. -/
structure ComputePass where
  dispatch_size : Nat × Nat × Nat
  vars : List String
  shader_type_path : String
deriving DecidableEq, Repr

/-- `Step` from `src/worker.rs`: either a compute pass or a swap of the two
named buffers. -/
inductive Step where
  | computePass (cp : ComputePass)
  | swap (a b : String)
deriving DecidableEq, Repr

/-- Is the step a compute pass? -/
def Step.isComputePass : Step → Bool
  | .computePass _ => true
  | .swap _ _ => false

/-- `RunMode` from `src/worker.rs`. -/
inductive RunMode where
  | Continuous
  | OneShot (triggered : Bool)
  | Immediate
deriving DecidableEq, Repr

/-- `WorkerState` from `src/worker.rs`. -/
inductive WorkerState where
  | Created
  | Available
  | Working
  | FinishedWorking
deriving DecidableEq, Repr

/-- The error enum of the crate (`src/error.rs` is not shipped with the
sources; its variants are reconstructed from their construction sites in
`src/worker.rs`).  `Panic` additionally models Rust panics
(`expect`/`unwrap`/indexing), which are not `Error` values in the source but
must be distinguishable from `Result::Err` values here. -/
inductive Error where
  | InvalidStep (step : String)
  | BufferNotFound (name : String)
  | PipelinesEmpty
  | PipelineNotReady
  | EncoderIsNone
  | StagingBufferNotFound (name : String)
  | Panic (msg : String)
deriving DecidableEq, Repr

/-- A command recorded into a command encoder: a compute-pass dispatch
(`set_pipeline` + `set_bind_group` + `dispatch_workgroups`, collapsed into
one record) or a buffer-to-buffer copy. -/
inductive Command where
  | dispatch (pipeline : Nat) (entries : List (Nat × Buffer))
      (size : Nat × Nat × Nat)
  | copyBufferToBuffer (src dst : Buffer) (size : Nat)
deriving DecidableEq, Repr

/-- Is the command a compute dispatch? -/
def Command.isDispatch : Command → Bool
  | .dispatch _ _ _ => true
  | .copyBufferToBuffer _ _ _ => false

instance {ε α : Type} [DecidableEq ε] [DecidableEq α] :
    DecidableEq (Except ε α) := fun a b =>
  match a, b with
  | .error e, .error f =>
    if h : e = f then isTrue (congrArg Except.error h)
    else isFalse (fun hh => h (Except.error.inj hh))
  | .ok x, .ok y =>
    if h : x = y then isTrue (congrArg Except.ok h)
    else isFalse (fun hh => h (Except.ok.inj hh))
  | .error _, .ok _ => isFalse (fun hh => Except.noConfusion hh)
  | .ok _, .error _ => isFalse (fun hh => Except.noConfusion hh)

/-- Is the command a buffer copy? -/
def Command.isCopy : Command → Bool
  | .dispatch _ _ _ => false
  | .copyBufferToBuffer _ _ _ => true

/-- First-match lookup in an association list (`HashMap::get`). -/
def lookupKey (m : List (String × α)) (k : String) : Option α :=
  match m with
  | [] => none
  | (k', v) :: rest => if k' = k then some v else lookupKey rest k

/-- `HashMap::contains_key`. -/
def containsKey (m : List (String × α)) (k : String) : Bool :=
  (lookupKey m k).isSome

/-- `HashMap::insert`: replace the value of an existing key, otherwise add
the entry. -/
def insertKey (m : List (String × α)) (k : String) (v : α) :
    List (String × α) :=
  if containsKey m k then
    m.map (fun kv => if kv.1 = k then (k, v) else kv)
  else
    m ++ [(k, v)]

/-- Per-entry action of a swap: an entry keyed `a` receives `b`'s value,
an entry keyed `b` receives `a`'s value, and every other entry is kept. -/
def swapFun (a b : String) (va vb : Option Buffer)
    (kv : String × Buffer) : String × Buffer :=
  if kv.1 = a then (kv.1, vb.getD kv.2)
  else if kv.1 = b then (kv.1, va.getD kv.2)
  else kv

/-- Exchange the values stored under keys `a` and `b`
(`get_many_mut` + `mem::swap` in `AppComputeWorker::swap`); other entries
are untouched.  Callers guarantee both keys are present. -/
def swapVals (m : List (String × Buffer)) (a b : String) :
    List (String × Buffer) :=
  m.map (swapFun a b (lookupKey m a) (lookupKey m b))

/-- Debug rendering of a step, standing in for Rust's
`format!("{:?}", step)` (the exact text is irrelevant to the engine). -/
def Step.debugStr : Step → String
  | .computePass _ => "ComputePass"
  | .swap _ _ => "Swap"

/-- `AppComputeWorker<W>` from `src/worker.rs`.  The external
`RenderDevice`/`RenderQueue` handles are replaced by their observable
effects: `submissions` is the ordered list of command buffers handed to the
queue, and fresh command encoders start empty. -/
structure AppComputeWorker where
  state : WorkerState
  cached_pipeline_ids : List (String × Nat)
  pipelines : List (String × Option Nat)
  buffers : List (String × Buffer)
  staging_buffers : List (String × StagingBuffer)
  steps : List Step
  command_encoder : Option (List Command)
  run_mode : RunMode
  wait_mode : Bool
  submissions : List (List Command)
deriving DecidableEq, Repr

/-- `CachedPipelineState` from bevy, restricted to what
`get_compute_pipeline` observes. -/
inductive CachedPipelineState where
  | Ok (renderPipeline : Bool) (pipeline : Nat)
  | Pending
deriving DecidableEq, Repr

/-- `CachedPipeline`: bevy's cache entry; only its state matters here. -/
structure CachedPipeline where
  state : CachedPipelineState
deriving DecidableEq, Repr

/-- `AppPipelineCache` from `src/pipeline_cache.rs`. -/
structure AppPipelineCache where
  pipeline_cache : List (Option CachedPipeline)
deriving DecidableEq, Repr

/-- `AppPipelineCache::get_compute_pipeline`: index into the cache vector,
then flatten the option layers, keeping only ready compute pipelines. -/
def AppPipelineCache.get_compute_pipeline (c : AppPipelineCache)
    (id : Nat) : Option Nat :=
  match c.pipeline_cache[id]? with
  | none => none
  | some none => none
  | some (some cached) =>
    match cached.state with
    | .Ok false p => some p
    | .Ok true _ => none
    | .Pending => none

namespace AppComputeWorker

/-- First index of a step satisfying `p` (`Iterator::position`). -/
def findPos (p : Step → Bool) : List Step → Option Nat
  | [] => none
  | s :: rest => if p s then some 0 else (findPos p rest).map (· + 1)

/-- Does the step reference shader type path `path`? -/
def isPassFor (path : String) : Step → Bool
  | .computePass cp => cp.shader_type_path = path
  | .swap _ _ => false

/-- `AppComputeWorker::set_dispatch_size::<S>`: find the first step whose
compute pass references `path` (panicking — `none` — if there is none),
and replace its dispatch size. -/
def set_dispatch_size (w : AppComputeWorker) (path : String)
    (dispatch_size : Nat × Nat × Nat) : Option AppComputeWorker :=
  match findPos (isPassFor path) w.steps with
  | none => none
  | some i =>
    match w.steps[i]? with
    | some (.computePass cp) =>
      some { w with
        steps := w.steps.set i
          (.computePass { cp with dispatch_size := dispatch_size }) }
    | some (.swap _ _) => none
    | none => none

/-- The bind-group entry loop of `AppComputeWorker::dispatch`: resolve each
variable name to its buffer, pairing it with its binding index. -/
def buildEntries (buffers : List (String × Buffer)) :
    List String → Nat → Except Error (List (Nat × Buffer))
  | [], _ => .ok []
  | v :: rest, i =>
    match lookupKey buffers v with
    | none => .error (.BufferNotFound v)
    | some buf => (buildEntries buffers rest (i + 1)).map ((i, buf) :: ·)

/-- `AppComputeWorker::dispatch`: resolve the step, its buffers, its
pipeline and the live encoder, then record one dispatch command. -/
def dispatch (w : AppComputeWorker) (index : Nat) :
    Except Error AppComputeWorker :=
  match w.steps[index]? with
  | none => .error (.Panic "index out of bounds")
  | some (.swap a b) => .error (.InvalidStep (Step.swap a b).debugStr)
  | some (.computePass cp) =>
    match buildEntries w.buffers cp.vars 0 with
    | .error e => .error e
    | .ok entries =>
      match lookupKey w.pipelines cp.shader_type_path with
      | none => .error .PipelinesEmpty
      | some none => .error .PipelineNotReady
      | some (some pipeline) =>
        match w.command_encoder with
        | none => .error .EncoderIsNone
        | some enc =>
          let cmd := Command.dispatch pipeline entries cp.dispatch_size
          .ok { w with command_encoder := some (enc ++ [cmd]) }

/-- `AppComputeWorker::swap`: check both names are registered, then exchange
the two allocations.  `get_many_mut` returns `None` (so the `unwrap`
panics) when the two keys coincide. -/
def swap (w : AppComputeWorker) (index : Nat) :
    Except Error AppComputeWorker :=
  match w.steps[index]? with
  | none => .error (.Panic "index out of bounds")
  | some (.computePass cp) =>
    .error (.InvalidStep (Step.computePass cp).debugStr)
  | some (.swap a b) =>
    if containsKey w.buffers a = false then .error (.BufferNotFound a)
    else if containsKey w.buffers b = false then .error (.BufferNotFound b)
    else if a = b then .error (.Panic "get_many_mut on overlapping keys")
    else .ok { w with buffers := swapVals w.buffers a b }

/-- Loop body of `AppComputeWorker::read_staging_buffers`: record one
device-to-host copy per staging buffer, sized to the staging buffer. -/
def read_staging_buffers_aux (w : AppComputeWorker) :
    List (String × StagingBuffer) → Except Error AppComputeWorker
  | [] => .ok w
  | (name, sb) :: rest =>
    match w.command_encoder with
    | none => .error .EncoderIsNone
    | some enc =>
      match lookupKey w.buffers name with
      | none => .error (.BufferNotFound name)
      | some buf =>
        let cmd := Command.copyBufferToBuffer buf sb.buffer sb.buffer.size
        read_staging_buffers_aux
          { w with command_encoder := some (enc ++ [cmd]) } rest

/-- `AppComputeWorker::read_staging_buffers`. -/
def read_staging_buffers (w : AppComputeWorker) :
    Except Error AppComputeWorker :=
  read_staging_buffers_aux w w.staging_buffers

/-- `AppComputeWorker::map_staging_buffers`: issue the async map requests
and mark every staging buffer mapped. -/
def map_staging_buffers (w : AppComputeWorker) : AppComputeWorker :=
  { w with staging_buffers :=
      w.staging_buffers.map fun kv => (kv.1, { kv.2 with mapped := true }) }

/-- `AppComputeWorker::try_read_raw`: look the staging buffer up by name and
return its mapped bytes (`get_mapped_range`); the `mapped` flag is not
consulted. -/
def try_read_raw (w : AppComputeWorker) (target : String) :
    Except Error (List Nat) :=
  match lookupKey w.staging_buffers target with
  | none => .error (.StagingBufferNotFound target)
  | some sb => .ok sb.buffer.data

/-- `AppComputeWorker::read_raw` (`try_read_raw(..).unwrap()`): `none`
models the panic. -/
def read_raw (w : AppComputeWorker) (target : String) : Option (List Nat) :=
  (try_read_raw w target).toOption

/-- `AppComputeWorker::try_read`: raw read then `bytemuck::from_bytes`;
the external byte decoder for the concrete type `B` is a parameter. -/
def try_read (w : AppComputeWorker) (decode : List Nat → β)
    (target : String) : Except Error β :=
  (try_read_raw w target).map decode

/-- `AppComputeWorker::read` (`try_read(..).unwrap()`). -/
def read (w : AppComputeWorker) (decode : List Nat → β)
    (target : String) : Option β :=
  (try_read w decode target).toOption

/-- `AppComputeWorker::try_read_vec`: raw read then
`bytemuck::cast_slice(..).to_vec()`; the element decoder is a parameter. -/
def try_read_vec (w : AppComputeWorker) (decodeVec : List Nat → List β)
    (target : String) : Except Error (List β) :=
  (try_read_raw w target).map decodeVec

/-- `AppComputeWorker::read_vec` (`try_read_vec(..).unwrap()`). -/
def read_vec (w : AppComputeWorker) (decodeVec : List Nat → List β)
    (target : String) : Option (List β) :=
  (try_read_vec w decodeVec target).toOption

/-- `AppComputeWorker::try_write`: look the buffer up and enqueue the bytes
on the render queue (replacing the buffer's contents; the allocation id is
kept).  The write queue itself is external, so the effect is modelled as an
in-place content update. -/
def try_write (w : AppComputeWorker) (target : String) (bytes : List Nat) :
    Except Error AppComputeWorker :=
  match lookupKey w.buffers target with
  | none => .error (.BufferNotFound target)
  | some buf =>
    let newBuf := { buf with data := bytes }
    .ok { w with buffers := insertKey w.buffers target newBuf }

/-- `AppComputeWorker::submit`: take the encoder (panicking — `none` — if
there is none), hand it to the queue, and mark the worker `Working`.  No
new encoder is created here. -/
def submit (w : AppComputeWorker) : Option AppComputeWorker :=
  match w.command_encoder with
  | none => none
  | some enc =>
    some { w with
      command_encoder := none,
      submissions := w.submissions ++ [enc],
      state := .Working }

/-- `AppComputeWorker::poll`: the maintain flavour (`Wait` vs `Poll`) is
chosen from `wait_mode`/`run_mode`, but the returned value is the device's
answer, which is an input here. -/
def poll (_w : AppComputeWorker) (deviceDone : Bool) : Bool :=
  deviceDone

/-- `AppComputeWorker::ready`. -/
def ready (w : AppComputeWorker) : Bool :=
  w.state = WorkerState.FinishedWorking

/-- `AppComputeWorker::execute`: trigger a one-shot worker; a no-op in
continuous mode; panics (`none`) in immediate mode. -/
def execute (w : AppComputeWorker) : Option AppComputeWorker :=
  match w.run_mode with
  | .Continuous => some w
  | .OneShot _ => some { w with run_mode := .OneShot true }
  | .Immediate => none

/-- `AppComputeWorker::ready_to_execute`. -/
def ready_to_execute (w : AppComputeWorker) : Bool :=
  decide (w.state ≠ WorkerState.Working ∧
    w.run_mode ≠ RunMode.OneShot false)

/-- Result of the step loop in `AppComputeWorker::run_aux`: every step ran,
or the cycle was abandoned on `PipelineNotReady` (early `return`), or some
other step error escalated to a panic. -/
inductive StepsResult where
  | ok (w : AppComputeWorker)
  | notReady (w : AppComputeWorker)
  | panicked
deriving DecidableEq, Repr

/-- One iteration of the step loop in `run_aux`/`run_immediate`: pick the
handler from the step's variant. -/
def stepAt (w : AppComputeWorker) (i : Nat) :
    Except Error AppComputeWorker :=
  match w.steps[i]? with
  | some (.computePass _) => dispatch w i
  | some (.swap _ _) => swap w i
  | none => .error (.Panic "index out of bounds")

/-- The `for i in 0..self.steps.len()` loop of `run_aux`/`run_immediate`,
applied to an explicit list of indices. -/
def run_steps (w : AppComputeWorker) : List Nat → StepsResult
  | [] => .ok w
  | i :: rest =>
    match stepAt w i with
    | .ok w' => run_steps w' rest
    | .error .PipelineNotReady => .notReady w
    | .error _ => .panicked

/-- Tail of `run_aux` (lines 571-582 of `src/worker.rs`): if the run mode is
not an untriggered one-shot and the device poll reports completion, mark the
results ready, allocate a fresh encoder, and reset a one-shot trigger. -/
def finishPoll (w : AppComputeWorker) (deviceDone : Bool) :
    AppComputeWorker :=
  if w.run_mode ≠ RunMode.OneShot false ∧ poll w deviceDone then
    { w with
      state := .FinishedWorking,
      command_encoder := some [],
      run_mode :=
        match w.run_mode with
        | .Continuous => w.run_mode
        | .Immediate => w.run_mode
        | .OneShot _ => .OneShot false }
  else w

/-- Head of `run_aux`: demote a `FinishedWorking` worker back to
`Available` before anything else happens this tick. -/
def demoteFinished (w : AppComputeWorker) : AppComputeWorker :=
  if ready w then { w with state := WorkerState.Available } else w

/-- `AppComputeWorker::run_aux`, the per-tick run step.  `none` models a
panic escalated out of the tick. -/
def run_aux (w0 : AppComputeWorker) (deviceDone : Bool) :
    Option AppComputeWorker :=
  let w := demoteFinished w0
  if ready_to_execute w then
    match run_steps w (List.range w.steps.length) with
    | .panicked => none
    | .notReady w1 => some w1
    | .ok w1 =>
      match read_staging_buffers w1 with
      | .error _ => none
      | .ok w2 =>
        match submit w2 with
        | none => none
        | some w3 => some (finishPoll (map_staging_buffers w3) deviceDone)
  else some (finishPoll w deviceDone)

/-- `AppComputeWorker::unmap_all_aux`. -/
def unmap_all_aux (w : AppComputeWorker) : AppComputeWorker :=
  if ready_to_execute w ∨ w.run_mode = RunMode.Immediate then
    { w with staging_buffers :=
        w.staging_buffers.map fun kv => (kv.1, { kv.2 with mapped := false }) }
  else w

/-- Loop of `AppComputeWorker::extract_pipelines_aux` over the (cloned)
cached pipeline id table. -/
def extract_loop (cache : AppPipelineCache) :
    AppComputeWorker → List (String × Nat) → AppComputeWorker
  | w, [] => w
  | w, (type_path, cached_id) :: rest =>
    match lookupKey w.pipelines type_path with
    | none => extract_loop cache w rest
    | some (some _) => extract_loop cache w rest
    | some none =>
      let fetched := cache.get_compute_pipeline cached_id
      extract_loop cache
        { w with pipelines := insertKey w.pipelines type_path fetched }
        rest

/-- `AppComputeWorker::extract_pipelines_aux`: the per-cycle pipeline
refresh. -/
def extract_pipelines_aux (w : AppComputeWorker)
    (cache : AppPipelineCache) : AppComputeWorker :=
  extract_loop cache w w.cached_pipeline_ids

end AppComputeWorker

/-- `AppComputeWorkerBuilder` from `src/worker_builder.rs` (the fields the
built worker consumes; the `App` handle is external). -/
structure AppComputeWorkerBuilder where
  cached_pipeline_ids : List (String × Nat)
  buffers : List (String × Buffer)
  staging_buffers : List (String × StagingBuffer)
  steps : List Step
  run_mode : RunMode
  wait_mode : Bool
deriving DecidableEq, Repr

namespace AppComputeWorkerBuilder

/-- `AppComputeWorkerBuilder::new`. -/
def new : AppComputeWorkerBuilder :=
  { cached_pipeline_ids := [],
    buffers := [],
    staging_buffers := [],
    steps := [],
    run_mode := .Continuous,
    wait_mode := true }

/-- `AppComputeWorkerBuilder::add_pass::<S>`: if the shader's type path has
no cached pipeline id yet, queue the pipeline (the fresh id returned by the
external `PipelineCache` is the `fresh_id` argument) and record the id;
then push the pass step.  Shader source loading is external I/O and has no
effect on the builder fields. -/
def add_pass (b : AppComputeWorkerBuilder) (type_path : String)
    (fresh_id : Nat) (dispatch_size : Nat × Nat × Nat)
    (vars : List String) : AppComputeWorkerBuilder :=
  let b' :=
    if containsKey b.cached_pipeline_ids type_path then b
    else { b with cached_pipeline_ids :=
            insertKey b.cached_pipeline_ids type_path fresh_id }
  { b' with steps := b'.steps ++
      [.computePass ⟨dispatch_size, vars, type_path⟩] }

/-- `AppComputeWorkerBuilder::add_swap`. -/
def add_swap (b : AppComputeWorkerBuilder) (buffer_a buffer_b : String) :
    AppComputeWorkerBuilder :=
  { b with steps := b.steps ++ [.swap buffer_a buffer_b] }

/-- The shared shape of `add_uniform`/`add_storage`/`add_rw_storage`/
`add_empty_*`: register a freshly created GPU buffer under the name. -/
def add_buffer (b : AppComputeWorkerBuilder) (name : String)
    (buf : Buffer) : AppComputeWorkerBuilder :=
  { b with buffers := insertKey b.buffers name buf }

/-- `AppComputeWorkerBuilder::add_staging`/`add_empty_staging`: register the
backing read/write storage buffer and a staging buffer created
host-mapped (`mapped = true`). -/
def add_staging (b : AppComputeWorkerBuilder) (name : String)
    (buf staging_buf : Buffer) : AppComputeWorkerBuilder :=
  let b' := b.add_buffer name buf
  { b' with staging_buffers :=
      insertKey b'.staging_buffers name ⟨true, staging_buf⟩ }

/-- `AppComputeWorkerBuilder::set_wait_mode`. -/
def set_wait_mode (b : AppComputeWorkerBuilder) (wait : Bool) :
    AppComputeWorkerBuilder :=
  { b with wait_mode := wait }

/-- `AppComputeWorkerBuilder::continuous`. -/
def continuous (b : AppComputeWorkerBuilder) : AppComputeWorkerBuilder :=
  { b with run_mode := .Continuous }

/-- `AppComputeWorkerBuilder::one_shot`. -/
def one_shot (b : AppComputeWorkerBuilder) : AppComputeWorkerBuilder :=
  { b with run_mode := .OneShot false }

/-- `AppComputeWorkerBuilder::immediate`. -/
def immediate (b : AppComputeWorkerBuilder) : AppComputeWorkerBuilder :=
  { b with run_mode := .Immediate }

/-- `impl From<&AppComputeWorkerBuilder> for AppComputeWorker`
(`AppComputeWorkerBuilder::build`): the pipeline table is keyed by exactly
the cached pipeline ids, every entry starting out `None`, and a first
command encoder is allocated. -/
def build (b : AppComputeWorkerBuilder) : AppComputeWorker :=
  { state := .Created,
    cached_pipeline_ids := b.cached_pipeline_ids,
    pipelines := b.cached_pipeline_ids.map fun kv => (kv.1, none),
    buffers := b.buffers,
    staging_buffers := b.staging_buffers,
    steps := b.steps,
    command_encoder := some [],
    run_mode := b.run_mode,
    wait_mode := b.wait_mode,
    submissions := [] }

end AppComputeWorkerBuilder

/-- One builder call, for quantifying over all builder-produced workers. -/
inductive BuilderOp where
  | addPass (type_path : String) (fresh_id : Nat)
      (dispatch_size : Nat × Nat × Nat) (vars : List String)
  | addSwap (a b : String)
  | addBuffer (name : String) (buf : Buffer)
  | addStaging (name : String) (buf staging_buf : Buffer)
  | setWaitMode (wait : Bool)
  | continuous
  | oneShot
  | immediate
deriving DecidableEq, Repr

/-- Apply one builder call. -/
def applyOp (b : AppComputeWorkerBuilder) : BuilderOp →
    AppComputeWorkerBuilder
  | .addPass type_path fresh_id dispatch_size vars =>
    b.add_pass type_path fresh_id dispatch_size vars
  | .addSwap x y => b.add_swap x y
  | .addBuffer name buf => b.add_buffer name buf
  | .addStaging name buf staging_buf => b.add_staging name buf staging_buf
  | .setWaitMode wait => b.set_wait_mode wait
  | .continuous => b.continuous
  | .oneShot => b.one_shot
  | .immediate => b.immediate

/-- Apply a sequence of builder calls to the fresh builder. -/
def applyOps (ops : List BuilderOp) : AppComputeWorkerBuilder :=
  ops.foldl applyOp AppComputeWorkerBuilder.new

/-- Specification-side effect of one step on the buffer registry: a swap
step exchanges its two entries, a compute pass leaves the registry alone. -/
def applySwapStep (m : List (String × Buffer)) : Step →
    List (String × Buffer)
  | .swap a b => swapVals m a b
  | .computePass _ => m

/-- Specification-side registry after executing every step exactly once in
declaration order. -/
def applySwapsOnce (steps : List Step) (m : List (String × Buffer)) :
    List (String × Buffer) :=
  steps.foldl applySwapStep m

/-- Specification-side shape of a recorded command block: the command list
holds, in declaration order, exactly one dispatch per compute-pass step
(with that step's declared workgroup size) and nothing for a swap step. -/
inductive RecordsSteps : List Step → List Command → Prop where
  | nil : RecordsSteps [] []
  | pass {cp : ComputePass} {rest : List Step} {cmds : List Command}
      (pipeline : Nat) (entries : List (Nat × Buffer))
      (h : RecordsSteps rest cmds) :
      RecordsSteps (Step.computePass cp :: rest)
        (Command.dispatch pipeline entries cp.dispatch_size :: cmds)
  | swap {a b : String} {rest : List Step} {cmds : List Command}
      (h : RecordsSteps rest cmds) :
      RecordsSteps (Step.swap a b :: rest) cmds

/-- The worker fields the step loop never touches (everything except the
buffer registry and the command encoder). -/
def SameScaffold (w w' : AppComputeWorker) : Prop :=
  w'.steps = w.steps ∧ w'.staging_buffers = w.staging_buffers ∧
  w'.state = w.state ∧ w'.run_mode = w.run_mode ∧
  w'.submissions = w.submissions ∧ w'.pipelines = w.pipelines ∧
  w'.cached_pipeline_ids = w.cached_pipeline_ids ∧
  w'.wait_mode = w.wait_mode

/-- Invariant of the builder: every declared compute pass has a cached
pipeline id registered for its shader type path. -/
def BuilderInv (b : AppComputeWorkerBuilder) : Prop :=
  ∀ cp : ComputePass, Step.computePass cp ∈ b.steps →
    containsKey b.cached_pipeline_ids cp.shader_type_path = true

/-! Concrete workers exercising the engine, used below to instantiate and
to refute claims on explicit inputs. -/

open AppComputeWorker in
/-- Two passes, shader `"A"` compiled, shader `"B"` still compiling. -/
def twoPassWorker : AppComputeWorker :=
  { state := .Created,
    cached_pipeline_ids := [("A", 0), ("B", 1)],
    pipelines := [("A", some 10), ("B", none)],
    buffers := [],
    staging_buffers := [],
    steps := [.computePass ⟨(1, 1, 1), [], "A"⟩,
              .computePass ⟨(2, 2, 2), [], "B"⟩],
    command_encoder := some [],
    run_mode := .Continuous,
    wait_mode := true,
    submissions := [] }

/-- External cache state in which shader `"B"` has finished compiling
(cached id 1 resolves to compute pipeline 11). -/
def twoPassCache : AppPipelineCache :=
  ⟨[none, some ⟨.Ok false 11⟩]⟩

/-- One compiled pass; the smallest worker whose cycle reaches
submission. -/
def singlePassWorker : AppComputeWorker :=
  { twoPassWorker with
    cached_pipeline_ids := [("A", 0)],
    pipelines := [("A", some 10)],
    steps := [.computePass ⟨(1, 1, 1), [], "A"⟩] }

/-- `singlePassWorker` after a tick whose device poll reported
completion. -/
def singlePassDone : AppComputeWorker :=
  { singlePassWorker with
    state := .FinishedWorking,
    command_encoder := some [],
    submissions := [[.dispatch 10 [] (1, 1, 1)]] }

/-- `singlePassWorker` after a tick whose device poll reported the work
still in flight. -/
def singlePassBusy : AppComputeWorker :=
  { singlePassWorker with
    state := .Working,
    command_encoder := none,
    submissions := [[.dispatch 10 [] (1, 1, 1)]] }

/-- Two passes referencing the same shader `"S"`, declared with different
dispatch sizes. -/
def samePathWorker : AppComputeWorker :=
  { twoPassWorker with
    cached_pipeline_ids := [("S", 0)],
    pipelines := [("S", some 10)],
    steps := [.computePass ⟨(1, 1, 1), [], "S"⟩,
              .computePass ⟨(2, 2, 2), [], "S"⟩] }

/-- `samePathWorker` after `set_dispatch_size` for `"S"`: the engine
modified the first matching pass, not the last one. -/
def samePathUpdated : AppComputeWorker :=
  { samePathWorker with
    steps := [.computePass ⟨(5, 5, 5), [], "S"⟩,
              .computePass ⟨(2, 2, 2), [], "S"⟩] }

/-- A swap ahead of a pass whose pipeline is still compiling: the cycle
aborts after the swap already ran. -/
def abortWorker : AppComputeWorker :=
  { twoPassWorker with
    cached_pipeline_ids := [("B", 1)],
    pipelines := [("B", none)],
    buffers := [("x", ⟨0, [1]⟩), ("y", ⟨1, [2]⟩)],
    steps := [.swap "x" "y", .computePass ⟨(1, 1, 1), [], "B"⟩] }

/-- The state in which the aborted tick leaves `abortWorker`: the swap's
exchange persists, everything else is untouched. -/
def abortedWorker : AppComputeWorker :=
  { abortWorker with
    buffers := [("x", ⟨1, [2]⟩), ("y", ⟨0, [1]⟩)] }

/-- An idle untriggered one-shot worker. -/
def oneShotIdle : AppComputeWorker :=
  { singlePassWorker with state := .Available, run_mode := .OneShot false }

/-- A triggered one-shot worker about to run its cycle. -/
def oneShotTriggered : AppComputeWorker :=
  { singlePassWorker with run_mode := .OneShot true }

/-- `oneShotTriggered` after the tick that ran its cycle and detected
completion: results ready and the trigger reset. -/
def oneShotDone : AppComputeWorker :=
  { singlePassWorker with
    run_mode := .OneShot false,
    state := .FinishedWorking,
    command_encoder := some [],
    submissions := [[.dispatch 10 [] (1, 1, 1)]] }

/-- A worker whose results are ready to be read. -/
def finishedWorker : AppComputeWorker :=
  { singlePassWorker with state := .FinishedWorking }

/-- A pipeline table with one resolved and one unresolved entry. -/
def refreshWorker : AppComputeWorker :=
  { twoPassWorker with pipelines := [("A", some 5), ("B", none)] }

/-- A registry with two distinct buffers and a swap step over them. -/
def swapPairWorker : AppComputeWorker :=
  { twoPassWorker with
    buffers := [("x", ⟨0, [1]⟩), ("y", ⟨1, [2]⟩)],
    steps := [.swap "x" "y"] }

/-- A swap step naming the same buffer twice. -/
def swapDupWorker : AppComputeWorker :=
  { twoPassWorker with
    buffers := [("foo", ⟨0, [1]⟩)],
    steps := [.swap "foo" "foo"] }

/-- A staging buffer that exists but is not currently mapped. -/
def unmappedWorker : AppComputeWorker :=
  { twoPassWorker with
    staging_buffers := [("foo", ⟨false, ⟨3, [9]⟩⟩)] }

/-- A builder call sequence declaring buffers, two passes and a swap. -/
def sampleOps : List BuilderOp :=
  [.addBuffer "buf" ⟨0, [1, 2, 3, 4]⟩,
   .addStaging "out" ⟨1, [0, 0]⟩ ⟨2, [0, 0]⟩,
   .addPass "S" 7 (1, 1, 1) ["buf", "out"],
   .addSwap "buf" "out",
   .addPass "T" 8 (2, 1, 1) ["out"],
   .addPass "S" 9 (4, 1, 1) ["buf"]]

/-! ### Association-list lemmas -/

theorem lookupKey_of_mem_nodup {α : Type} {m : List (String × α)}
    {k : String} {v : α} (hnd : (m.map Prod.fst).Nodup)
    (hm : (k, v) ∈ m) : lookupKey m k = some v := by
  induction m with
  | nil => cases hm
  | cons kv rest ih =>
    obtain ⟨k', v'⟩ := kv
    simp only [List.map_cons, List.nodup_cons] at hnd
    rcases List.mem_cons.mp hm with h | h
    · cases h
      simp [lookupKey]
    · have hk : k' ≠ k := by
        intro he
        subst he
        exact hnd.1 (List.mem_map.mpr ⟨(k', v), h, rfl⟩)
      simpa [lookupKey, hk] using ih hnd.2 h

theorem lookupKey_replaceAll {α : Type} {m : List (String × α)}
    {k : String} (v : α) (hc : containsKey m k = true) :
    lookupKey (m.map fun kv => if kv.1 = k then (k, v) else kv) k
      = some v := by
  induction m with
  | nil => simp [containsKey, lookupKey] at hc
  | cons kv rest ih =>
    obtain ⟨k', v'⟩ := kv
    simp only [List.map_cons]
    by_cases h : k' = k
    · rw [if_pos h]
      simp [lookupKey]
    · rw [if_neg h]
      have hc' : containsKey rest k = true := by
        simpa [containsKey, lookupKey, h] using hc
      simpa [lookupKey, h] using ih hc'

theorem lookupKey_replaceAll_ne {α : Type} {m : List (String × α)}
    {k k' : String} (v : α) (h : k' ≠ k) :
    lookupKey (m.map fun kv => if kv.1 = k then (k, v) else kv) k'
      = lookupKey m k' := by
  induction m with
  | nil => rfl
  | cons kv rest ih =>
    obtain ⟨k'', v'⟩ := kv
    simp only [List.map_cons]
    by_cases hh : k'' = k
    · rw [if_pos hh]
      have hk : k ≠ k' := fun he => h he.symm
      subst hh
      simp [lookupKey, hk, ih]
    · rw [if_neg hh]
      simp [lookupKey, ih]

theorem lookupKey_append_single {α : Type} {m : List (String × α)}
    {k : String} (v : α) (hc : containsKey m k = false) :
    lookupKey (m ++ [(k, v)]) k = some v := by
  induction m with
  | nil => simp [lookupKey]
  | cons kv rest ih =>
    obtain ⟨k', v'⟩ := kv
    by_cases h : k' = k
    · exfalso
      simp [containsKey, lookupKey, h] at hc
    · have hc' : containsKey rest k = false := by
        simpa [containsKey, lookupKey, h] using hc
      simpa [lookupKey, h] using ih hc'

theorem lookupKey_append_single_ne {α : Type} {m : List (String × α)}
    {k k' : String} (v : α) (h : k' ≠ k) :
    lookupKey (m ++ [(k, v)]) k' = lookupKey m k' := by
  induction m with
  | nil => simp [lookupKey, Ne.symm h]
  | cons kv rest ih =>
    obtain ⟨k'', v'⟩ := kv
    by_cases hh : k'' = k'
    · simp [lookupKey, hh]
    · simp [lookupKey, hh, ih]

theorem swapFun_eq_a {a b k : String} (va vb : Option Buffer) (v : Buffer)
    (hka : k = a) : swapFun a b va vb (k, v) = (k, vb.getD v) := by
  simp [swapFun, hka]

theorem swapFun_eq_b {a b k : String} (va vb : Option Buffer) (v : Buffer)
    (hka : k ≠ a) (hkb : k = b) :
    swapFun a b va vb (k, v) = (k, va.getD v) := by
  subst hkb
  simp [swapFun, hka]

theorem swapFun_eq_other {a b k : String} (va vb : Option Buffer)
    (v : Buffer) (hka : k ≠ a) (hkb : k ≠ b) :
    swapFun a b va vb (k, v) = (k, v) := by
  simp [swapFun, hka, hkb]

theorem lookupKey_insertKey_self {α : Type} (m : List (String × α))
    (k : String) (v : α) : lookupKey (insertKey m k v) k = some v := by
  unfold insertKey
  split
  · next hc => exact lookupKey_replaceAll v hc
  · next hc =>
    exact lookupKey_append_single v (Bool.not_eq_true _ ▸ eq_false_of_ne_true hc)

theorem lookupKey_insertKey_ne {α : Type} (m : List (String × α))
    {k k' : String} (v : α) (h : k' ≠ k) :
    lookupKey (insertKey m k v) k' = lookupKey m k' := by
  unfold insertKey
  split
  · exact lookupKey_replaceAll_ne v h
  · exact lookupKey_append_single_ne v h

theorem lookupKey_map_swapFun_a (a b : String) (va vb : Option Buffer)
    (m : List (String × Buffer)) :
    lookupKey (m.map (swapFun a b va vb)) a
      = (lookupKey m a).map (fun v => vb.getD v) := by
  induction m with
  | nil => rfl
  | cons kv rest ih =>
    obtain ⟨k, v⟩ := kv
    simp only [List.map_cons]
    by_cases hka : k = a
    · rw [swapFun_eq_a va vb v hka]
      simp [lookupKey, hka]
    · by_cases hkb : k = b
      · rw [swapFun_eq_b va vb v hka hkb]
        simp [lookupKey, hka, ih]
      · rw [swapFun_eq_other va vb v hka hkb]
        simp [lookupKey, hka, ih]

theorem lookupKey_map_swapFun_b {a b : String} (hab : a ≠ b)
    (va vb : Option Buffer) (m : List (String × Buffer)) :
    lookupKey (m.map (swapFun a b va vb)) b
      = (lookupKey m b).map (fun v => va.getD v) := by
  induction m with
  | nil => rfl
  | cons kv rest ih =>
    obtain ⟨k, v⟩ := kv
    simp only [List.map_cons]
    by_cases hka : k = a
    · rw [swapFun_eq_a va vb v hka]
      have hkb : k ≠ b := fun he => hab (hka ▸ he ▸ rfl)
      simp [lookupKey, hkb, ih]
    · by_cases hkb : k = b
      · rw [swapFun_eq_b va vb v hka hkb]
        simp [lookupKey, hkb]
      · rw [swapFun_eq_other va vb v hka hkb]
        simp [lookupKey, hkb, ih]

theorem lookupKey_map_swapFun_other {a b k : String} (hka : k ≠ a)
    (hkb : k ≠ b) (va vb : Option Buffer) (m : List (String × Buffer)) :
    lookupKey (m.map (swapFun a b va vb)) k = lookupKey m k := by
  induction m with
  | nil => rfl
  | cons kv rest ih =>
    obtain ⟨k', v⟩ := kv
    simp only [List.map_cons]
    by_cases ha : k' = a
    · rw [swapFun_eq_a va vb v ha]
      have hne : k' ≠ k := fun he => hka (he.symm.trans ha)
      simp [lookupKey, hne, ih]
    · by_cases hb : k' = b
      · rw [swapFun_eq_b va vb v ha hb]
        have hne : k' ≠ k := fun he => hkb (he.symm.trans hb)
        simp [lookupKey, hne, ih]
      · rw [swapFun_eq_other va vb v ha hb]
        by_cases hkk : k' = k
        · simp [lookupKey, hkk]
        · simp [lookupKey, hkk, ih]

theorem lookupKey_swapVals_a {m : List (String × Buffer)}
    {a b : String} {x y : Buffer} (ha : lookupKey m a = some x)
    (hb : lookupKey m b = some y) :
    lookupKey (swapVals m a b) a = some y := by
  unfold swapVals
  rw [lookupKey_map_swapFun_a, ha, hb]
  rfl

theorem lookupKey_swapVals_b {m : List (String × Buffer)}
    {a b : String} {x y : Buffer} (hab : a ≠ b)
    (ha : lookupKey m a = some x) (hb : lookupKey m b = some y) :
    lookupKey (swapVals m a b) b = some x := by
  unfold swapVals
  rw [lookupKey_map_swapFun_b hab, ha, hb]
  rfl

theorem lookupKey_swapVals_other {m : List (String × Buffer)}
    {a b k : String} (hka : k ≠ a) (hkb : k ≠ b) :
    lookupKey (swapVals m a b) k = lookupKey m k := by
  unfold swapVals
  exact lookupKey_map_swapFun_other hka hkb _ _ m

theorem swapVals_swapVals {m : List (String × Buffer)} {a b : String}
    {x y : Buffer} (hnd : (m.map Prod.fst).Nodup) (hab : a ≠ b)
    (ha : lookupKey m a = some x) (hb : lookupKey m b = some y) :
    swapVals (swapVals m a b) a b = m := by
  have h1 : lookupKey (swapVals m a b) a = some y :=
    lookupKey_swapVals_a ha hb
  have h2 : lookupKey (swapVals m a b) b = some x :=
    lookupKey_swapVals_b hab ha hb
  conv_lhs => rw [swapVals]
  rw [h1, h2]
  conv_lhs => rw [swapVals]
  rw [ha, hb, List.map_map]
  have hpt : ∀ kv ∈ m,
      (swapFun a b (some y) (some x) ∘ swapFun a b (some x) (some y)) kv
        = id kv := by
    intro kv hkv
    obtain ⟨k, v⟩ := kv
    by_cases hka : k = a
    · subst hka
      have hv : lookupKey m k = some v := lookupKey_of_mem_nodup hnd hkv
      have hxv : x = v := by
        rw [ha] at hv
        exact (Option.some.inj hv)
      simp [swapFun, Function.comp, hxv]
    · by_cases hkb : k = b
      · subst hkb
        have hv : lookupKey m k = some v := lookupKey_of_mem_nodup hnd hkv
        have hyv : y = v := by
          rw [hb] at hv
          exact (Option.some.inj hv)
        simp [swapFun, Function.comp, hka, hyv]
      · simp [swapFun, Function.comp, hka, hkb]
  rw [List.map_congr_left hpt, List.map_id]

/-! ### Worker-operation characterizations -/

namespace AppComputeWorker

theorem demoteFinished_fields (w : AppComputeWorker) :
    (demoteFinished w).steps = w.steps ∧
    (demoteFinished w).buffers = w.buffers ∧
    (demoteFinished w).staging_buffers = w.staging_buffers ∧
    (demoteFinished w).command_encoder = w.command_encoder ∧
    (demoteFinished w).run_mode = w.run_mode ∧
    (demoteFinished w).submissions = w.submissions ∧
    (demoteFinished w).pipelines = w.pipelines ∧
    (demoteFinished w).cached_pipeline_ids = w.cached_pipeline_ids ∧
    (demoteFinished w).wait_mode = w.wait_mode := by
  unfold demoteFinished
  split <;> exact ⟨rfl, rfl, rfl, rfl, rfl, rfl, rfl, rfl, rfl⟩

theorem demoteFinished_state (w : AppComputeWorker) :
    (demoteFinished w).state
      = if ready w then WorkerState.Available else w.state := by
  unfold demoteFinished
  split <;> simp_all

theorem demoteFinished_state_ne (w : AppComputeWorker) :
    (demoteFinished w).state ≠ WorkerState.FinishedWorking := by
  rw [demoteFinished_state]
  split
  · simp
  · next h =>
    simp only [ready, decide_eq_true_eq] at h
    intro hc
    exact h hc

theorem finishPoll_fields (w : AppComputeWorker) (g : Bool) :
    (finishPoll w g).steps = w.steps ∧
    (finishPoll w g).buffers = w.buffers ∧
    (finishPoll w g).staging_buffers = w.staging_buffers ∧
    (finishPoll w g).submissions = w.submissions ∧
    (finishPoll w g).pipelines = w.pipelines ∧
    (finishPoll w g).cached_pipeline_ids = w.cached_pipeline_ids ∧
    (finishPoll w g).wait_mode = w.wait_mode := by
  unfold finishPoll
  split <;> exact ⟨rfl, rfl, rfl, rfl, rfl, rfl, rfl⟩

theorem finishPoll_false (w : AppComputeWorker) :
    finishPoll w false = w := by
  unfold finishPoll
  split
  · next h => simp [poll] at h
  · rfl

theorem finishPoll_oneShot_false (w : AppComputeWorker) (g : Bool)
    (h : w.run_mode = RunMode.OneShot false) : finishPoll w g = w := by
  unfold finishPoll
  split
  · next hc => exact absurd h hc.1
  · rfl

theorem finishPoll_true (w : AppComputeWorker)
    (h : w.run_mode ≠ RunMode.OneShot false) :
    finishPoll w true =
      { w with
        state := .FinishedWorking,
        command_encoder := some [],
        run_mode :=
          match w.run_mode with
          | .Continuous => w.run_mode
          | .Immediate => w.run_mode
          | .OneShot _ => .OneShot false } := by
  unfold finishPoll
  split
  · rfl
  · next hc =>
    exact absurd ⟨h, rfl⟩ hc

theorem map_staging_buffers_fields (w : AppComputeWorker) :
    (map_staging_buffers w).steps = w.steps ∧
    (map_staging_buffers w).buffers = w.buffers ∧
    (map_staging_buffers w).state = w.state ∧
    (map_staging_buffers w).command_encoder = w.command_encoder ∧
    (map_staging_buffers w).run_mode = w.run_mode ∧
    (map_staging_buffers w).submissions = w.submissions :=
  ⟨rfl, rfl, rfl, rfl, rfl, rfl⟩

theorem submit_eq_some {w w' : AppComputeWorker}
    (h : submit w = some w') :
    ∃ enc, w.command_encoder = some enc ∧
      w' = { w with
        command_encoder := none,
        submissions := w.submissions ++ [enc],
        state := .Working } := by
  unfold submit at h
  split at h
  · exact Option.noConfusion h
  · next enc heq => exact ⟨enc, heq, (Option.some.inj h).symm⟩

theorem submit_none {w : AppComputeWorker}
    (h : w.command_encoder = none) : submit w = none := by
  unfold submit
  split
  · rfl
  · next enc heq => rw [h] at heq; exact Option.noConfusion heq

theorem buildEntries_error {bufs : List (String × Buffer)}
    {vars : List String} {i : Nat} {e : Error}
    (h : buildEntries bufs vars i = .error e) :
    ∃ v, e = Error.BufferNotFound v := by
  induction vars generalizing i with
  | nil => exact Except.noConfusion h
  | cons v rest ih =>
    unfold buildEntries at h
    split at h
    · exact ⟨v, (Except.error.inj h).symm⟩
    · cases hb : buildEntries bufs rest (i + 1) with
      | error e' =>
        rw [hb] at h
        simp only [Except.map] at h
        rw [Except.error.inj h] at hb
        exact ih hb
      | ok l =>
        rw [hb] at h
        simp only [Except.map] at h
        exact Except.noConfusion h

theorem dispatch_ok {w w' : AppComputeWorker} {i : Nat}
    (h : dispatch w i = .ok w') :
    ∃ cp entries pipeline enc,
      w.steps[i]? = some (.computePass cp) ∧
      buildEntries w.buffers cp.vars 0 = .ok entries ∧
      lookupKey w.pipelines cp.shader_type_path = some (some pipeline) ∧
      w.command_encoder = some enc ∧
      w'.command_encoder
        = some (enc ++ [.dispatch pipeline entries cp.dispatch_size]) ∧
      w' = { w with command_encoder := w'.command_encoder } := by
  unfold dispatch at h
  split at h
  · exact Except.noConfusion h
  · exact Except.noConfusion h
  · next cp hstep =>
    split at h
    · exact Except.noConfusion h
    · next entries hent =>
      split at h
      · exact Except.noConfusion h
      · exact Except.noConfusion h
      · next pipeline hpipe =>
        split at h
        · exact Except.noConfusion h
        · next enc henc =>
          have hw := (Except.ok.inj h).symm
          subst hw
          exact ⟨cp, entries, pipeline, enc, hstep, hent, hpipe, henc,
            rfl, rfl⟩

theorem dispatch_not_pipeline_ready {w w' : AppComputeWorker} {i : Nat}
    (h : dispatch w i = .error Error.PipelineNotReady) :
    ∃ cp, w.steps[i]? = some (.computePass cp) ∧
      lookupKey w.pipelines cp.shader_type_path = some none := by
  unfold dispatch at h
  split at h
  · exact absurd (Except.error.inj h) (by simp)
  · exact absurd (Except.error.inj h) (by simp)
  · next cp hstep =>
    split at h
    · next e hent =>
      exfalso
      have he : e = Error.PipelineNotReady := Except.error.inj h
      obtain ⟨v, hv⟩ := buildEntries_error hent
      rw [he] at hv
      exact Error.noConfusion hv
    · split at h
      · exact absurd (Except.error.inj h) (by simp)
      · next hpipe => exact ⟨cp, hstep, hpipe⟩
      · split at h
        · exact absurd (Except.error.inj h) (by simp)
        · exact Except.noConfusion h

theorem swap_ok {w w' : AppComputeWorker} {i : Nat}
    (h : swap w i = .ok w') :
    ∃ a b, w.steps[i]? = some (.swap a b) ∧ a ≠ b ∧
      containsKey w.buffers a = true ∧ containsKey w.buffers b = true ∧
      w' = { w with buffers := swapVals w.buffers a b } := by
  unfold swap at h
  split at h
  · exact Except.noConfusion h
  · exact Except.noConfusion h
  · next a b hstep =>
    split at h
    · exact Except.noConfusion h
    · next ha =>
      split at h
      · exact Except.noConfusion h
      · next hb =>
        split at h
        · exact Except.noConfusion h
        · next hab =>
          refine ⟨a, b, hstep, hab, ?_, ?_, (Except.ok.inj h).symm⟩
          · exact Bool.of_not_eq_false ha
          · exact Bool.of_not_eq_false hb

theorem sameScaffold_refl (w : AppComputeWorker) : SameScaffold w w :=
  ⟨rfl, rfl, rfl, rfl, rfl, rfl, rfl, rfl⟩

theorem sameScaffold_trans {w w1 w2 : AppComputeWorker}
    (h1 : SameScaffold w w1) (h2 : SameScaffold w1 w2) :
    SameScaffold w w2 :=
  ⟨h2.1.trans h1.1, h2.2.1.trans h1.2.1, h2.2.2.1.trans h1.2.2.1,
   h2.2.2.2.1.trans h1.2.2.2.1, h2.2.2.2.2.1.trans h1.2.2.2.2.1,
   h2.2.2.2.2.2.1.trans h1.2.2.2.2.2.1,
   h2.2.2.2.2.2.2.1.trans h1.2.2.2.2.2.2.1,
   h2.2.2.2.2.2.2.2.trans h1.2.2.2.2.2.2.2⟩

theorem run_steps_ok_spec :
    ∀ (k i : Nat) (w w' : AppComputeWorker) (enc : List Command),
    w.command_encoder = some enc →
    i + k = w.steps.length →
    run_steps w (List.range' i k) = .ok w' →
    ∃ rec, w'.command_encoder = some (enc ++ rec) ∧
      RecordsSteps (w.steps.drop i) rec ∧
      w'.buffers = applySwapsOnce (w.steps.drop i) w.buffers ∧
      SameScaffold w w' := by
  intro k
  induction k with
  | zero =>
    intro i w w' enc henc hlen hrun
    have hi : i = w.steps.length := by omega
    have hw : w = w' := StepsResult.ok.inj hrun
    subst hw
    refine ⟨[], by simpa using henc, ?_, ?_, sameScaffold_refl w⟩
    · rw [hi, List.drop_length]
      exact RecordsSteps.nil
    · rw [hi, List.drop_length]
      rfl
  | succ k ih =>
    intro i w w' enc henc hlen hrun
    have hi : i < w.steps.length := by omega
    have hget : w.steps[i]? = some w.steps[i] := List.getElem?_eq_getElem hi
    have hdrop : w.steps.drop i = w.steps[i] :: w.steps.drop (i + 1) :=
      List.drop_eq_getElem_cons hi
    rw [List.range'_succ] at hrun
    unfold run_steps at hrun
    cases hd : stepAt w i with
    | error e =>
      rw [hd] at hrun
      cases e <;> exact StepsResult.noConfusion hrun
    | ok w1 =>
      rw [hd] at hrun
      have hrun' : run_steps w1 (List.range' (i + 1) k) = .ok w' := hrun
      cases hstep : w.steps[i] with
      | computePass cp =>
        have hd' : dispatch w i = .ok w1 := by
          rw [← hd]
          unfold stepAt
          rw [hget, hstep]
        obtain ⟨cp', entries, pipeline, enc', hcp', hent, hpipe, henc',
          hw1enc, hw1⟩ := dispatch_ok hd'
        have hcpeq : cp = cp' := by
          rw [hget, hstep] at hcp'
          exact Step.computePass.inj (Option.some.inj hcp')
        subst hcpeq
        have henceq : enc = enc' := by
          rw [henc] at henc'
          exact Option.some.inj henc'
        subst henceq
        have hsteps1 : w1.steps = w.steps := by rw [hw1]
        have hbufs1 : w1.buffers = w.buffers := by rw [hw1]
        have hlen1 : (i + 1) + k = w1.steps.length := by
          rw [hsteps1]; omega
        obtain ⟨rec', hrec'enc, hrec'rs, hrec'buf, hrec'sc⟩ :=
          ih (i + 1) w1 w' (enc ++ [.dispatch pipeline entries
            cp.dispatch_size]) hw1enc hlen1 hrun'
        refine ⟨.dispatch pipeline entries cp.dispatch_size :: rec',
          ?_, ?_, ?_, ?_⟩
        · rw [hrec'enc, List.append_assoc]
          rfl
        · rw [hdrop, hstep]
          exact RecordsSteps.pass pipeline entries
            (by rw [hsteps1] at hrec'rs; exact hrec'rs)
        · rw [hdrop, hstep]
          show w'.buffers
            = applySwapsOnce (w.steps.drop (i + 1)) w.buffers
          rw [← hbufs1, ← hsteps1]
          exact hrec'buf
        · refine sameScaffold_trans ?_ hrec'sc
          rw [hw1]
          exact ⟨rfl, rfl, rfl, rfl, rfl, rfl, rfl, rfl⟩
      | swap a b =>
        have hd' : swap w i = .ok w1 := by
          rw [← hd]
          unfold stepAt
          rw [hget, hstep]
        obtain ⟨a', b', hab', hne, hca, hcb, hw1⟩ := swap_ok hd'
        have habeq : a' = a ∧ b' = b := by
          rw [hget, hstep] at hab'
          have := Step.swap.inj (Option.some.inj hab')
          exact ⟨this.1.symm, this.2.symm⟩
        obtain ⟨ha'', hb''⟩ := habeq
        subst ha''
        subst hb''
        have hsteps1 : w1.steps = w.steps := by rw [hw1]
        have hbufs1 : w1.buffers = swapVals w.buffers a' b' := by rw [hw1]
        have henc1 : w1.command_encoder = some enc := by rw [hw1, henc]
        have hlen1 : (i + 1) + k = w1.steps.length := by
          rw [hsteps1]; omega
        obtain ⟨rec', hrec'enc, hrec'rs, hrec'buf, hrec'sc⟩ :=
          ih (i + 1) w1 w' enc henc1 hlen1 hrun'
        refine ⟨rec', hrec'enc, ?_, ?_, ?_⟩
        · rw [hdrop, hstep]
          exact RecordsSteps.swap
            (by rw [hsteps1] at hrec'rs; exact hrec'rs)
        · rw [hdrop, hstep]
          show w'.buffers = applySwapsOnce (w.steps.drop (i + 1))
            (swapVals w.buffers a' b')
          rw [← hbufs1, ← hsteps1]
          exact hrec'buf
        · refine sameScaffold_trans ?_ hrec'sc
          rw [hw1]
          exact ⟨rfl, rfl, rfl, rfl, rfl, rfl, rfl, rfl⟩

theorem run_steps_notReady_spec :
    ∀ (k i : Nat) (w w' : AppComputeWorker) (enc : List Command),
    w.command_encoder = some enc →
    i + k = w.steps.length →
    run_steps w (List.range' i k) = .notReady w' →
    SameScaffold w w' ∧
      (∃ rec, w'.command_encoder = some (enc ++ rec)) ∧
      (∃ j, w'.buffers
        = applySwapsOnce ((w.steps.drop i).take j) w.buffers) := by
  intro k
  induction k with
  | zero =>
    intro i w w' enc henc hlen hrun
    exact StepsResult.noConfusion hrun
  | succ k ih =>
    intro i w w' enc henc hlen hrun
    have hi : i < w.steps.length := by omega
    have hget : w.steps[i]? = some w.steps[i] := List.getElem?_eq_getElem hi
    have hdrop : w.steps.drop i = w.steps[i] :: w.steps.drop (i + 1) :=
      List.drop_eq_getElem_cons hi
    rw [List.range'_succ] at hrun
    unfold run_steps at hrun
    cases hd : stepAt w i with
    | error e =>
      rw [hd] at hrun
      cases e with
      | PipelineNotReady =>
        have hw : w = w' := StepsResult.notReady.inj hrun
        subst hw
        refine ⟨sameScaffold_refl w, ⟨[], by simpa using henc⟩, 0, ?_⟩
        simp [applySwapsOnce]
      | InvalidStep s => exact StepsResult.noConfusion hrun
      | BufferNotFound n => exact StepsResult.noConfusion hrun
      | PipelinesEmpty => exact StepsResult.noConfusion hrun
      | EncoderIsNone => exact StepsResult.noConfusion hrun
      | StagingBufferNotFound n => exact StepsResult.noConfusion hrun
      | Panic msg => exact StepsResult.noConfusion hrun
    | ok w1 =>
      rw [hd] at hrun
      have hrun' : run_steps w1 (List.range' (i + 1) k) = .notReady w' :=
        hrun
      cases hstep : w.steps[i] with
      | computePass cp =>
        have hd' : dispatch w i = .ok w1 := by
          rw [← hd]
          unfold stepAt
          rw [hget, hstep]
        obtain ⟨cp', entries, pipeline, enc', hcp', hent, hpipe, henc',
          hw1enc, hw1⟩ := dispatch_ok hd'
        have hcpeq : cp = cp' := by
          rw [hget, hstep] at hcp'
          exact Step.computePass.inj (Option.some.inj hcp')
        subst hcpeq
        have henceq : enc = enc' := by
          rw [henc] at henc'
          exact Option.some.inj henc'
        subst henceq
        have hsteps1 : w1.steps = w.steps := by rw [hw1]
        have hbufs1 : w1.buffers = w.buffers := by rw [hw1]
        have hlen1 : (i + 1) + k = w1.steps.length := by
          rw [hsteps1]; omega
        obtain ⟨hsc, ⟨rec', hrecenc⟩, j, hbuf⟩ :=
          ih (i + 1) w1 w' _ hw1enc hlen1 hrun'
        refine ⟨sameScaffold_trans (by rw [hw1]; exact
          ⟨rfl, rfl, rfl, rfl, rfl, rfl, rfl, rfl⟩) hsc,
          ⟨.dispatch pipeline entries cp.dispatch_size :: rec', ?_⟩,
          j + 1, ?_⟩
        · rw [hrecenc, List.append_assoc]
          rfl
        · rw [hdrop, hstep, List.take_succ_cons]
          show w'.buffers
            = applySwapsOnce ((w.steps.drop (i + 1)).take j) w.buffers
          rw [← hbufs1, ← hsteps1]
          exact hbuf
      | swap a b =>
        have hd' : swap w i = .ok w1 := by
          rw [← hd]
          unfold stepAt
          rw [hget, hstep]
        obtain ⟨a', b', hab', hne, hca, hcb, hw1⟩ := swap_ok hd'
        have habeq : a' = a ∧ b' = b := by
          rw [hget, hstep] at hab'
          have := Step.swap.inj (Option.some.inj hab')
          exact ⟨this.1.symm, this.2.symm⟩
        obtain ⟨ha'', hb''⟩ := habeq
        subst ha''
        subst hb''
        have hsteps1 : w1.steps = w.steps := by rw [hw1]
        have hbufs1 : w1.buffers = swapVals w.buffers a' b' := by rw [hw1]
        have henc1 : w1.command_encoder = some enc := by rw [hw1, henc]
        have hlen1 : (i + 1) + k = w1.steps.length := by
          rw [hsteps1]; omega
        obtain ⟨hsc, hrec, j, hbuf⟩ := ih (i + 1) w1 w' enc henc1 hlen1
          hrun'
        refine ⟨sameScaffold_trans (by rw [hw1]; exact
          ⟨rfl, rfl, rfl, rfl, rfl, rfl, rfl, rfl⟩) hsc, hrec,
          j + 1, ?_⟩
        rw [hdrop, hstep, List.take_succ_cons]
        show w'.buffers = applySwapsOnce
          ((w.steps.drop (i + 1)).take j) (swapVals w.buffers a' b')
        rw [← hbufs1, ← hsteps1]
        exact hbuf

theorem ready_to_execute_iff (w : AppComputeWorker) :
    ready_to_execute w = true ↔
      (w.state ≠ WorkerState.Working ∧
        w.run_mode ≠ RunMode.OneShot false) := by
  simp [ready_to_execute]

theorem read_staging_aux_spec :
    ∀ (l : List (String × StagingBuffer)) (w w' : AppComputeWorker)
      (enc : List Command),
    w.command_encoder = some enc →
    read_staging_buffers_aux w l = .ok w' →
    ∃ copies, w'.command_encoder = some (enc ++ copies) ∧
      (∀ c ∈ copies, c.isCopy = true) ∧
      w'.buffers = w.buffers ∧ SameScaffold w w' := by
  intro l
  induction l with
  | nil =>
    intro w w' enc henc h
    have hw : w = w' := Except.ok.inj h
    subst hw
    exact ⟨[], by simpa using henc, by simp, rfl, sameScaffold_refl w⟩
  | cons p rest ih =>
    intro w w' enc henc h
    obtain ⟨name, sb⟩ := p
    unfold read_staging_buffers_aux at h
    rw [henc] at h
    cases hl : lookupKey w.buffers name with
    | none =>
      rw [hl] at h
      exact Except.noConfusion h
    | some buf =>
      rw [hl] at h
      have h' : read_staging_buffers_aux
          { w with command_encoder := some (enc ++
            [.copyBufferToBuffer buf sb.buffer sb.buffer.size]) } rest
          = .ok w' := h
      obtain ⟨copies, hcenc, hccopy, hcbuf, hcsc⟩ :=
        ih _ w' _ rfl h'
      refine ⟨.copyBufferToBuffer buf sb.buffer sb.buffer.size :: copies,
        ?_, ?_, hcbuf, ?_⟩
      · rw [hcenc, List.append_assoc]
        rfl
      · intro c hc
        rcases List.mem_cons.mp hc with hc | hc
        · rw [hc]
          rfl
        · exact hccopy c hc
      · exact sameScaffold_trans ⟨rfl, rfl, rfl, rfl, rfl, rfl, rfl, rfl⟩
          hcsc

theorem extract_loop_preserves_some :
    ∀ (ids : List (String × Nat)) (w : AppComputeWorker)
      (cache : AppPipelineCache) {tp : String} {p : Nat},
    lookupKey w.pipelines tp = some (some p) →
    lookupKey (extract_loop cache w ids).pipelines tp = some (some p) := by
  intro ids
  induction ids with
  | nil =>
    intro w cache tp p h
    exact h
  | cons e rest ih =>
    intro w cache tp p h
    obtain ⟨tp', cid⟩ := e
    show lookupKey (extract_loop cache w ((tp', cid) :: rest)).pipelines tp
      = some (some p)
    unfold extract_loop
    cases hl : lookupKey w.pipelines tp' with
    | none => exact ih w cache h
    | some op =>
      cases op with
      | some q => exact ih w cache h
      | none =>
        have htp : tp' ≠ tp := by
          intro he
          subst he
          rw [hl] at h
          exact Option.noConfusion (Option.some.inj h)
        refine ih _ cache ?_
        show lookupKey (insertKey w.pipelines tp'
          (cache.get_compute_pipeline cid)) tp = some (some p)
        rw [lookupKey_insertKey_ne _ _ (Ne.symm htp)]
        exact h

theorem extract_loop_preserves_missing :
    ∀ (ids : List (String × Nat)) (w : AppComputeWorker)
      (cache : AppPipelineCache) {tp : String},
    lookupKey w.pipelines tp = none →
    lookupKey (extract_loop cache w ids).pipelines tp = none := by
  intro ids
  induction ids with
  | nil =>
    intro w cache tp h
    exact h
  | cons e rest ih =>
    intro w cache tp h
    obtain ⟨tp', cid⟩ := e
    show lookupKey (extract_loop cache w ((tp', cid) :: rest)).pipelines tp
      = none
    unfold extract_loop
    cases hl : lookupKey w.pipelines tp' with
    | none => exact ih w cache h
    | some op =>
      cases op with
      | some q => exact ih w cache h
      | none =>
        have htp : tp' ≠ tp := by
          intro he
          subst he
          rw [hl] at h
          exact Option.noConfusion h
        refine ih _ cache ?_
        show lookupKey (insertKey w.pipelines tp'
          (cache.get_compute_pipeline cid)) tp = none
        rw [lookupKey_insertKey_ne _ _ (Ne.symm htp)]
        exact h

theorem extract_loop_fills_from_cache :
    ∀ (ids : List (String × Nat)) (w : AppComputeWorker)
      (cache : AppPipelineCache) {tp : String} {p : Nat},
    lookupKey (extract_loop cache w ids).pipelines tp = some (some p) →
    lookupKey w.pipelines tp = some (some p) ∨
      ∃ cid, (tp, cid) ∈ ids ∧
        cache.get_compute_pipeline cid = some p := by
  intro ids
  induction ids with
  | nil =>
    intro w cache tp p h
    exact Or.inl h
  | cons e rest ih =>
    intro w cache tp p h
    obtain ⟨tp', cid⟩ := e
    unfold extract_loop at h
    cases hl : lookupKey w.pipelines tp' with
    | none =>
      rw [hl] at h
      rcases ih w cache h with h2 | ⟨cid', hmem, hc⟩
      · exact Or.inl h2
      · exact Or.inr ⟨cid', List.mem_cons_of_mem _ hmem, hc⟩
    | some op =>
      cases op with
      | some q =>
        rw [hl] at h
        rcases ih w cache h with h2 | ⟨cid', hmem, hc⟩
        · exact Or.inl h2
        · exact Or.inr ⟨cid', List.mem_cons_of_mem _ hmem, hc⟩
      | none =>
        rw [hl] at h
        have h' : lookupKey (extract_loop cache { w with pipelines := insertKey w.pipelines tp' (cache.get_compute_pipeline cid) } rest).pipelines tp = some (some p) := h
        rcases ih _ cache h' with h2 | ⟨cid', hmem, hc⟩
        · by_cases he : tp = tp'
          · subst he
            rw [lookupKey_insertKey_self] at h2
            exact Or.inr ⟨cid, List.mem_cons_self _ _,
              Option.some.inj h2⟩
          · rw [lookupKey_insertKey_ne _ _ he] at h2
            exact Or.inl h2
        · exact Or.inr ⟨cid', List.mem_cons_of_mem _ hmem, hc⟩

theorem run_aux_else {w : AppComputeWorker} {g : Bool}
    (h : ready_to_execute (demoteFinished w) = false) :
    run_aux w g = some (finishPoll (demoteFinished w) g) := by
  simp only [run_aux, h]
  simp

theorem run_aux_abort {w w1 : AppComputeWorker} {g : Bool}
    (hr : ready_to_execute (demoteFinished w) = true)
    (hrs : run_steps (demoteFinished w)
      (List.range (demoteFinished w).steps.length)
      = StepsResult.notReady w1) :
    run_aux w g = some w1 := by
  simp only [run_aux, hr]
  simp only [if_true]
  rw [hrs]

theorem run_aux_panicked {w : AppComputeWorker} {g : Bool}
    (hr : ready_to_execute (demoteFinished w) = true)
    (hrs : run_steps (demoteFinished w)
      (List.range (demoteFinished w).steps.length)
      = StepsResult.panicked) :
    run_aux w g = none := by
  simp only [run_aux, hr]
  simp only [if_true]
  rw [hrs]

theorem run_aux_ok_path {w w1 : AppComputeWorker} {g : Bool}
    (hr : ready_to_execute (demoteFinished w) = true)
    (hrs : run_steps (demoteFinished w)
      (List.range (demoteFinished w).steps.length)
      = StepsResult.ok w1) :
    run_aux w g =
      (match read_staging_buffers w1 with
       | .error _ => none
       | .ok w2 =>
         match submit w2 with
         | none => none
         | some w3 => some (finishPoll (map_staging_buffers w3) g)) := by
  simp only [run_aux, hr]
  simp only [if_true]
  rw [hrs]

theorem run_aux_submission_spec {w w' : AppComputeWorker} {g : Bool}
    {enc sub : List Command}
    (henc : w.command_encoder = some enc)
    (hrun : run_aux w g = some w')
    (hsub : w'.submissions = w.submissions ++ [sub]) :
    ∃ rec copies,
      sub = enc ++ rec ++ copies ∧
      RecordsSteps w.steps rec ∧
      (∀ c ∈ copies, c.isCopy = true) ∧
      w'.buffers = applySwapsOnce w.steps w.buffers ∧
      (g = false → w'.command_encoder = none ∧
        w'.state = WorkerState.Working) ∧
      (g = true → w'.command_encoder = some [] ∧
        w'.state = WorkerState.FinishedWorking) := by
  obtain ⟨hfsteps, hfbufs, hfstag, hfenc, hfrm, hfsub, hfpipe, hfcache,
    hfwait⟩ := demoteFinished_fields w
  by_cases hr : ready_to_execute (demoteFinished w) = true
  case neg =>
    exfalso
    have hb : ready_to_execute (demoteFinished w) = false :=
      Bool.of_not_eq_true hr
    rw [run_aux_else hb] at hrun
    have hw : finishPoll (demoteFinished w) g = w' := Option.some.inj hrun
    have hsubs : w'.submissions = w.submissions := by
      rw [← hw, (finishPoll_fields _ _).2.2.2.1, hfsub]
    rw [hsubs] at hsub
    have hlen := congrArg List.length hsub
    simp at hlen
  case pos =>
    have henc0 : (demoteFinished w).command_encoder = some enc := by
      rw [hfenc, henc]
    cases hrs : run_steps (demoteFinished w)
        (List.range (demoteFinished w).steps.length) with
    | panicked =>
      rw [run_aux_panicked hr hrs] at hrun
      exact Option.noConfusion hrun
    | notReady w1 =>
      exfalso
      rw [run_aux_abort hr hrs] at hrun
      have hw1 : w1 = w' := Option.some.inj hrun
      subst hw1
      have hrs' := hrs
      rw [List.range_eq_range'] at hrs'
      obtain ⟨hsc, _, _⟩ := run_steps_notReady_spec
        (demoteFinished w).steps.length 0 (demoteFinished w) w1 enc
        henc0 (by omega) hrs'
      have hsubs : w1.submissions = w.submissions := by
        rw [hsc.2.2.2.2.1, hfsub]
      rw [hsubs] at hsub
      have hlen := congrArg List.length hsub
      simp at hlen
    | ok w1 =>
      rw [run_aux_ok_path hr hrs] at hrun
      cases hread : read_staging_buffers w1 with
      | error e =>
        rw [hread] at hrun
        exact Option.noConfusion hrun
      | ok w2 =>
        rw [hread] at hrun
        have hrun2 : (match submit w2 with
            | none => none
            | some w3 => some (finishPoll (map_staging_buffers w3) g))
            = some w' := hrun
        cases hsubm : submit w2 with
        | none =>
          rw [hsubm] at hrun2
          exact Option.noConfusion hrun2
        | some w3 =>
          rw [hsubm] at hrun2
          have hw' : w' = finishPoll (map_staging_buffers w3) g :=
            (Option.some.inj hrun2).symm
          have hrs' := hrs
          rw [List.range_eq_range'] at hrs'
          obtain ⟨rec, hrecenc, hrecrs, hrecbuf, hrecsc⟩ :=
            run_steps_ok_spec (demoteFinished w).steps.length 0
              (demoteFinished w) w1 enc henc0 (by omega) hrs'
          rw [List.drop_zero] at hrecrs hrecbuf
          have hread' : read_staging_buffers_aux w1 w1.staging_buffers
              = .ok w2 := hread
          obtain ⟨copies, hcenc, hccopy, hcbuf, hcsc⟩ :=
            read_staging_aux_spec w1.staging_buffers w1 w2 (enc ++ rec)
              hrecenc hread'
          obtain ⟨enc2, henc2, hw3⟩ := submit_eq_some hsubm
          have henc2eq : enc2 = (enc ++ rec) ++ copies := by
            rw [henc2] at hcenc
            exact Option.some.inj hcenc
          subst henc2eq
          have hsubs3 : w3.submissions
              = w.submissions ++ [(enc ++ rec) ++ copies] := by
            rw [hw3]
            show w2.submissions ++ [(enc ++ rec) ++ copies]
              = w.submissions ++ [(enc ++ rec) ++ copies]
            rw [hcsc.2.2.2.2.1, hrecsc.2.2.2.2.1, hfsub]
          have hrm3 : w3.run_mode = w.run_mode := by
            rw [hw3]
            show w2.run_mode = w.run_mode
            rw [hcsc.2.2.2.1, hrecsc.2.2.2.1, hfrm]
          have hbuf3 : w3.buffers = applySwapsOnce w.steps w.buffers := by
            rw [hw3]
            show w2.buffers = applySwapsOnce w.steps w.buffers
            rw [hcbuf, hrecbuf, hfsteps, hfbufs]
          have hsubw' : w'.submissions = w3.submissions := by
            rw [hw']
            exact (finishPoll_fields _ _).2.2.2.1
          have hsubeq : sub = enc ++ rec ++ copies := by
            have : w.submissions ++ [sub]
                = w.submissions ++ [(enc ++ rec) ++ copies] := by
              rw [← hsub, hsubw', hsubs3]
            simpa using this
          have hrmne : w.run_mode ≠ RunMode.OneShot false := by
            have hiff := (ready_to_execute_iff (demoteFinished w)).mp hr
            rw [hfrm] at hiff
            exact hiff.2
          refine ⟨rec, copies, hsubeq, by rw [← hfsteps]; exact hrecrs,
            hccopy, ?_, ?_, ?_⟩
          · rw [hw']
            rw [(finishPoll_fields _ _).2.1]
            show w3.buffers = applySwapsOnce w.steps w.buffers
            exact hbuf3
          · intro hg
            subst hg
            rw [hw', finishPoll_false]
            constructor
            · show w3.command_encoder = none
              rw [hw3]
            · show w3.state = WorkerState.Working
              rw [hw3]
          · intro hg
            subst hg
            have hrmm : (map_staging_buffers w3).run_mode
                ≠ RunMode.OneShot false := by
              show w3.run_mode ≠ RunMode.OneShot false
              rw [hrm3]
              exact hrmne
            rw [hw', finishPoll_true _ hrmm]
            exact ⟨rfl, rfl⟩

theorem run_steps_frame :
    ∀ (js : List Nat) (w w' : AppComputeWorker),
    (run_steps w js = .ok w' ∨ run_steps w js = .notReady w') →
    w'.run_mode = w.run_mode ∧ w'.state = w.state ∧
    w'.submissions = w.submissions ∧ w'.steps = w.steps := by
  intro js
  induction js with
  | nil =>
    intro w w' h
    rcases h with h | h
    · have hw : w = w' := StepsResult.ok.inj h
      subst hw
      exact ⟨rfl, rfl, rfl, rfl⟩
    · exact StepsResult.noConfusion h
  | cons i rest ih =>
    intro w w' h
    unfold run_steps at h
    cases hd : stepAt w i with
    | error e =>
      rw [hd] at h
      cases e with
      | PipelineNotReady =>
        rcases h with h | h
        · exact StepsResult.noConfusion h
        · have hw : w = w' := StepsResult.notReady.inj h
          subst hw
          exact ⟨rfl, rfl, rfl, rfl⟩
      | InvalidStep s =>
        rcases h with h | h <;> exact StepsResult.noConfusion h
      | BufferNotFound n =>
        rcases h with h | h <;> exact StepsResult.noConfusion h
      | PipelinesEmpty =>
        rcases h with h | h <;> exact StepsResult.noConfusion h
      | EncoderIsNone =>
        rcases h with h | h <;> exact StepsResult.noConfusion h
      | StagingBufferNotFound n =>
        rcases h with h | h <;> exact StepsResult.noConfusion h
      | Panic msg =>
        rcases h with h | h <;> exact StepsResult.noConfusion h
    | ok w1 =>
      rw [hd] at h
      have h' : run_steps w1 rest = .ok w' ∨
          run_steps w1 rest = .notReady w' := h
      have hframe1 : w1.run_mode = w.run_mode ∧ w1.state = w.state ∧
          w1.submissions = w.submissions ∧ w1.steps = w.steps := by
        unfold stepAt at hd
        split at hd
        · obtain ⟨_, _, _, _, _, _, _, _, _, hw1⟩ := dispatch_ok hd
          rw [hw1]
          exact ⟨rfl, rfl, rfl, rfl⟩
        · obtain ⟨_, _, _, _, _, _, hw1⟩ := swap_ok hd
          rw [hw1]
          exact ⟨rfl, rfl, rfl, rfl⟩
        · exact Except.noConfusion hd
      obtain ⟨h1, h2, h3, h4⟩ := ih w1 w' h'
      exact ⟨h1.trans hframe1.1, h2.trans hframe1.2.1,
        h3.trans hframe1.2.2.1, h4.trans hframe1.2.2.2⟩

theorem read_staging_aux_frame :
    ∀ (l : List (String × StagingBuffer)) (w w' : AppComputeWorker),
    read_staging_buffers_aux w l = .ok w' →
    w'.run_mode = w.run_mode ∧ w'.state = w.state ∧
    w'.submissions = w.submissions := by
  intro l
  induction l with
  | nil =>
    intro w w' h
    have hw : w = w' := Except.ok.inj h
    subst hw
    exact ⟨rfl, rfl, rfl⟩
  | cons p rest ih =>
    intro w w' h
    obtain ⟨name, sb⟩ := p
    unfold read_staging_buffers_aux at h
    cases he : w.command_encoder with
    | none =>
      rw [he] at h
      exact Except.noConfusion h
    | some enc =>
      rw [he] at h
      cases hl : lookupKey w.buffers name with
      | none =>
        rw [hl] at h
        exact Except.noConfusion h
      | some buf =>
        rw [hl] at h
        have h' : read_staging_buffers_aux { w with command_encoder := some (enc ++ [Command.copyBufferToBuffer buf sb.buffer sb.buffer.size]) } rest = .ok w' := h
        have hrest := ih _ w' h'
        exact hrest

theorem findPos_none_iff (p : Step → Bool) (l : List Step) :
    findPos p l = none ↔ ∀ s ∈ l, p s = false := by
  induction l with
  | nil => simp [findPos]
  | cons s rest ih =>
    by_cases h : p s
    · simp [findPos, h]
    · simp only [findPos, if_neg h, Option.map_eq_none', ih,
        List.mem_cons]
      constructor
      · intro hall t ht
        rcases ht with ht | ht
        · rw [ht]
          exact Bool.of_not_eq_true h
        · exact hall t ht
      · intro hall t ht
        exact hall t (Or.inr ht)

theorem findPos_some_spec (p : Step → Bool) :
    ∀ (l : List Step) (i : Nat), findPos p l = some i →
    ∃ s, l[i]? = some s ∧ p s = true ∧
      ∀ j s', j < i → l[j]? = some s' → p s' = false := by
  intro l
  induction l with
  | nil =>
    intro i h
    exact Option.noConfusion h
  | cons s rest ih =>
    intro i h
    by_cases hp : p s
    · unfold findPos at h
      rw [if_pos hp] at h
      have hi : 0 = i := Option.some.inj h
      subst hi
      refine ⟨s, by simp, hp, ?_⟩
      intro j s' hj
      omega
    · unfold findPos at h
      rw [if_neg hp] at h
      cases hf : findPos p rest with
      | none =>
        rw [hf] at h
        exact Option.noConfusion h
      | some i' =>
        rw [hf] at h
        have hi : i' + 1 = i := by simpa using h
        subst hi
        obtain ⟨s', hs', hps', hbefore⟩ := ih i' hf
        refine ⟨s', by simpa using hs', hps', ?_⟩
        intro j t hj hjt
        cases j with
        | zero =>
          have ht : s = t := by simpa using hjt
          rw [← ht]
          exact Bool.of_not_eq_true hp
        | succ j' =>
          exact hbefore j' t (by omega) (by simpa using hjt)

end AppComputeWorker

theorem containsKey_insertKey_self {α : Type} (m : List (String × α))
    (k : String) (v : α) : containsKey (insertKey m k v) k = true := by
  simp [containsKey, lookupKey_insertKey_self]

theorem containsKey_insertKey_mono {α : Type} {m : List (String × α)}
    {k' : String} (k : String) (v : α)
    (h : containsKey m k' = true) :
    containsKey (insertKey m k v) k' = true := by
  by_cases he : k' = k
  · subst he
    exact containsKey_insertKey_self m k' v
  · simp only [containsKey] at h ⊢
    rw [lookupKey_insertKey_ne _ _ he]
    exact h

theorem lookupKey_map_pair_none (m : List (String × Nat)) (k : String) :
    lookupKey (m.map fun kv => (kv.1, (none : Option Nat))) k
      = (lookupKey m k).map (fun _ => (none : Option Nat)) := by
  induction m with
  | nil => rfl
  | cons kv rest ih =>
    obtain ⟨k', v⟩ := kv
    by_cases h : k' = k
    · simp [lookupKey, h]
    · simp [lookupKey, h, ih]

theorem applyOp_inv {b : AppComputeWorkerBuilder} (op : BuilderOp)
    (h : BuilderInv b) : BuilderInv (applyOp b op) := by
  cases op with
  | addPass type_path fresh_id dispatch_size vars =>
    intro cp hmem
    simp only [applyOp, AppComputeWorkerBuilder.add_pass] at hmem ⊢
    by_cases hc : containsKey b.cached_pipeline_ids type_path = true
    · rw [if_pos hc] at hmem ⊢
      rcases List.mem_append.mp hmem with hm | hm
      · exact h cp hm
      · have hcp : cp = ⟨dispatch_size, vars, type_path⟩ := by
          simpa using hm
        rw [hcp]
        exact hc
    · rw [if_neg hc] at hmem ⊢
      rcases List.mem_append.mp hmem with hm | hm
      · exact containsKey_insertKey_mono _ _ (h cp hm)
      · have hcp : cp = ⟨dispatch_size, vars, type_path⟩ := by
          simpa using hm
        rw [hcp]
        exact containsKey_insertKey_self _ _ _
  | addSwap a b' =>
    intro cp hmem
    simp only [applyOp, AppComputeWorkerBuilder.add_swap] at hmem
    rcases List.mem_append.mp hmem with hm | hm
    · exact h cp hm
    · simp at hm
  | addBuffer name buf =>
    intro cp hmem
    exact h cp hmem
  | addStaging name buf staging_buf =>
    intro cp hmem
    exact h cp hmem
  | setWaitMode wait =>
    intro cp hmem
    exact h cp hmem
  | continuous =>
    intro cp hmem
    exact h cp hmem
  | oneShot =>
    intro cp hmem
    exact h cp hmem
  | immediate =>
    intro cp hmem
    exact h cp hmem

theorem foldl_applyOp_inv :
    ∀ (ops : List BuilderOp) (b : AppComputeWorkerBuilder),
    BuilderInv b → BuilderInv (ops.foldl applyOp b) := by
  intro ops
  induction ops with
  | nil =>
    intro b h
    exact h
  | cons op rest ih =>
    intro b h
    exact ih (applyOp b op) (applyOp_inv op h)

theorem applyOps_inv (ops : List BuilderOp) :
    BuilderInv (applyOps ops) := by
  unfold applyOps
  refine foldl_applyOp_inv ops AppComputeWorkerBuilder.new ?_
  intro cp hmem
  simp [AppComputeWorkerBuilder.new] at hmem

/-! ### Claims -/

namespace AppComputeWorker

/-- Claim C1 (amended): in the run of `run_aux` that reaches submission,
each declared step is executed and recorded exactly once in declaration
order — one dispatch per `ComputePass` carrying that pass's workgroup
size, one registry exchange per `Swap` — followed only by staging copies;
however the submitted command buffer also replays the encoder's prior
contents `enc` (which, after a tick aborted by a not-ready pipeline,
still holds that aborted attempt's dispatches), so the claim's
"no duplicated dispatches left over from an aborted cycle" does not hold
of the code. -/
theorem c1_cycle_records_each_step_once {w w' : AppComputeWorker}
    {g : Bool} {enc sub : List Command}
    (henc : w.command_encoder = some enc)
    (hrun : run_aux w g = some w')
    (hsub : w'.submissions = w.submissions ++ [sub]) :
    ∃ rec copies,
      sub = enc ++ rec ++ copies ∧
      RecordsSteps w.steps rec ∧
      (∀ c ∈ copies, c.isCopy = true) ∧
      w'.buffers = applySwapsOnce w.steps w.buffers := by
  obtain ⟨rec, copies, h1, h2, h3, h4, _, _⟩ :=
    run_aux_submission_spec henc hrun hsub
  exact ⟨rec, copies, h1, h2, h3, h4⟩

/-- Claim C1 counterexample: `twoPassWorker` declares two compute passes;
its first tick aborts at the second pass (pipeline not ready) after
recording the first pass's dispatch, and after the pipeline compiles the
next tick records both passes again into the same encoder and submits — so
the single submitted command stream contains three dispatches for two
declared passes, refuting "one dispatch per ComputePass step and no
duplicated dispatches left over from a previous tick's aborted cycle". -/
theorem c1_counterexample :
    ((run_aux twoPassWorker true).bind
      (fun w => run_aux (extract_pipelines_aux w twoPassCache) true)).map
        (fun w => ((w.submissions.headD []).countP Command.isDispatch,
          w.submissions.length))
      = some (3, 1) ∧
    twoPassWorker.steps.countP Step.isComputePass = 2 := by
  decide

/-- Claim C1 witness: the amended theorem instantiated on the one-pass
worker whose cycle submits on its first tick. -/
theorem c1_witness :
    singlePassWorker.command_encoder = some [] ∧
    run_aux singlePassWorker true = some singlePassDone ∧
    singlePassDone.submissions = singlePassWorker.submissions
      ++ [[Command.dispatch 10 [] (1, 1, 1)]] ∧
    (∃ rec copies,
      [Command.dispatch 10 [] (1, 1, 1)] = [] ++ rec ++ copies ∧
      RecordsSteps singlePassWorker.steps rec ∧
      (∀ c ∈ copies, c.isCopy = true) ∧
      singlePassDone.buffers
        = applySwapsOnce singlePassWorker.steps singlePassWorker.buffers) :=
  ⟨rfl, by decide, by decide,
    c1_cycle_records_each_step_once (g := true) rfl (by decide)
      (by decide)⟩

/-- Claim C4 (amended): `submit()` finalizes the encoder, hands it to the
queue and transitions the state to `Working`, but does **not** allocate a
fresh encoder: after `submit` the worker holds `none`.  The fresh encoder
is allocated only by the completion branch of the run step — on a tick
whose device poll reports the work still in flight the worker keeps no
live encoder, and on the tick whose poll reports completion it receives a
fresh empty encoder together with the `FinishedWorking` state. -/
theorem c4_submit_defers_encoder (w : AppComputeWorker) :
    (∀ enc, w.command_encoder = some enc →
      submit w = some { w with
        command_encoder := none,
        submissions := w.submissions ++ [enc],
        state := .Working }) ∧
    (w.command_encoder = none → submit w = none) ∧
    (∀ enc w' sub, w.command_encoder = some enc →
      run_aux w false = some w' →
      w'.submissions = w.submissions ++ [sub] →
      w'.command_encoder = none ∧ w'.state = WorkerState.Working) ∧
    (∀ enc w' sub, w.command_encoder = some enc →
      run_aux w true = some w' →
      w'.submissions = w.submissions ++ [sub] →
      w'.command_encoder = some [] ∧
      w'.state = WorkerState.FinishedWorking) := by
  refine ⟨?_, submit_none, ?_, ?_⟩
  · intro enc h
    unfold submit
    rw [h]
  · intro enc w' sub h hrun hsub
    obtain ⟨_, _, _, _, _, _, hfalse, _⟩ :=
      run_aux_submission_spec h hrun hsub
    exact hfalse rfl
  · intro enc w' sub h hrun hsub
    obtain ⟨_, _, _, _, _, _, _, htrue⟩ :=
      run_aux_submission_spec h hrun hsub
    exact htrue rfl

/-- Claim C4 counterexample: right after `submit()` returns, the worker
holds no command encoder (`none`), refuting "immediately allocates a fresh
command encoder so that ... after submit() returns, the worker again holds
a live (Some) command encoder"; a full tick whose poll reports incomplete
likewise ends with no encoder. -/
theorem c4_counterexample :
    (submit twoPassWorker).map
      (fun w => (w.command_encoder, w.state, w.submissions))
      = some (none, WorkerState.Working, [[]]) ∧
    (run_aux singlePassWorker false).map
      (fun w => (w.command_encoder, w.submissions.length))
      = some (none, 1) := by
  decide

/-- Claim C4 witness: the amended theorem instantiated on concrete
workers for the submit call and for both poll outcomes. -/
theorem c4_witness :
    submit twoPassWorker = some { twoPassWorker with
      command_encoder := none,
      submissions := twoPassWorker.submissions ++ [[]],
      state := .Working } ∧
    (singlePassBusy.command_encoder = none ∧
      singlePassBusy.state = WorkerState.Working) ∧
    (singlePassDone.command_encoder = some [] ∧
      singlePassDone.state = WorkerState.FinishedWorking) :=
  ⟨(c4_submit_defers_encoder twoPassWorker).1 [] rfl,
   (c4_submit_defers_encoder singlePassWorker).2.2.1 []
     singlePassBusy [Command.dispatch 10 [] (1, 1, 1)] rfl (by decide)
     (by decide),
   (c4_submit_defers_encoder singlePassWorker).2.2.2 []
     singlePassDone [Command.dispatch 10 [] (1, 1, 1)] rfl (by decide)
     (by decide)⟩

/-- Claim C6: a `FinishedWorking` worker is demoted to `Available` before
the start-of-cycle check — the tick behaves exactly as if the worker had
entered it `Available` — so `ready()` (which holds exactly in
`FinishedWorking`) is true for the one tick between completion detection
and the next run step, and the start-of-cycle check never observes
`FinishedWorking`. -/
theorem c6_finished_demoted_first (w : AppComputeWorker) (g : Bool) :
    (w.state = WorkerState.FinishedWorking →
      run_aux w g = run_aux { w with state := WorkerState.Available } g) ∧
    (ready w = true ↔ w.state = WorkerState.FinishedWorking) ∧
    (demoteFinished w).state ≠ WorkerState.FinishedWorking := by
  refine ⟨?_, by simp [ready], demoteFinished_state_ne w⟩
  intro h
  have hr : ready w = true := by simp [ready, h]
  have h1 : demoteFinished w = { w with state := WorkerState.Available } := by
    unfold demoteFinished
    rw [if_pos hr]
  have hr2 : ¬ ready { w with state := WorkerState.Available } = true := by
    simp [ready]
  have h2 : demoteFinished { w with state := WorkerState.Available }
      = { w with state := WorkerState.Available } := by
    unfold demoteFinished
    rw [if_neg hr2]
  simp only [run_aux]
  rw [h1, h2]

/-- Claim C6 witness: the demotion equation on a finished worker. -/
theorem c6_witness :
    run_aux finishedWorker true
      = run_aux { finishedWorker with state := WorkerState.Available }
          true :=
  (c6_finished_demoted_first finishedWorker true).1 rfl

/-- Claim C7: the per-cycle pipeline refresh leaves every already-resolved
pipeline entry untouched, adds no keys, and the value it writes into a
still-`None` entry can only come from the external cache under one of the
worker's cached pipeline ids. -/
theorem c7_refresh_preserves_resolved (w : AppComputeWorker)
    (cache : AppPipelineCache) :
    (∀ tp p, lookupKey w.pipelines tp = some (some p) →
      lookupKey (extract_pipelines_aux w cache).pipelines tp
        = some (some p)) ∧
    (∀ tp, lookupKey w.pipelines tp = none →
      lookupKey (extract_pipelines_aux w cache).pipelines tp = none) ∧
    (∀ tp p,
      lookupKey (extract_pipelines_aux w cache).pipelines tp
        = some (some p) →
      lookupKey w.pipelines tp = some (some p) ∨
        ∃ cid, (tp, cid) ∈ w.cached_pipeline_ids ∧
          cache.get_compute_pipeline cid = some p) := by
  unfold extract_pipelines_aux
  exact ⟨fun tp p h => extract_loop_preserves_some _ w cache h,
    fun tp h => extract_loop_preserves_missing _ w cache h,
    fun tp p h => extract_loop_fills_from_cache _ w cache h⟩

/-- Claim C7 witness: refreshing `refreshWorker` (entry `"A"` resolved,
entry `"B"` unresolved) leaves the resolved entry exactly as it was. -/
theorem c7_witness :
    lookupKey refreshWorker.pipelines "A" = some (some 5) ∧
    lookupKey (extract_pipelines_aux refreshWorker
      twoPassCache).pipelines "A" = some (some 5) :=
  ⟨by decide, (c7_refresh_preserves_resolved refreshWorker
    twoPassCache).1 "A" 5 (by decide)⟩

/-- Claim C8 (amended): for a `Swap(A, B)` step over two **distinct**
registered buffer names, executing the step twice restores the worker
exactly, and a single execution exchanges only the entries of `A` and `B`.
The distinctness restriction is forced on the claim by the code: for
`A = B` the swap's `get_many_mut([A, A]).unwrap()` panics instead of
performing a (trivial) exchange. -/
theorem c8_swap_involution {w : AppComputeWorker} {i : Nat}
    {a b : String} {x y : Buffer}
    (hstep : w.steps[i]? = some (.swap a b)) (hab : a ≠ b)
    (hnd : (w.buffers.map Prod.fst).Nodup)
    (ha : lookupKey w.buffers a = some x)
    (hb : lookupKey w.buffers b = some y) :
    ((swap w i).bind (fun w1 => swap w1 i)) = .ok w ∧
    swap w i = .ok { w with buffers := swapVals w.buffers a b } ∧
    lookupKey (swapVals w.buffers a b) a = lookupKey w.buffers b ∧
    lookupKey (swapVals w.buffers a b) b = lookupKey w.buffers a ∧
    (∀ k, k ≠ a → k ≠ b →
      lookupKey (swapVals w.buffers a b) k = lookupKey w.buffers k) := by
  have hca : containsKey w.buffers a = true := by
    simp [containsKey, ha]
  have hcb : containsKey w.buffers b = true := by
    simp [containsKey, hb]
  have hsw1 : swap w i
      = .ok { w with buffers := swapVals w.buffers a b } := by
    simp only [swap, hstep]
    rw [if_neg (by simp [hca]), if_neg (by simp [hcb]), if_neg hab]
  have hla := lookupKey_swapVals_a ha hb
  have hlb := lookupKey_swapVals_b hab ha hb
  have hca2 : containsKey (swapVals w.buffers a b) a = true := by
    simp [containsKey, hla]
  have hcb2 : containsKey (swapVals w.buffers a b) b = true := by
    simp [containsKey, hlb]
  have hinv := swapVals_swapVals hnd hab ha hb
  have hsw2 : swap { w with buffers := swapVals w.buffers a b } i
      = .ok w := by
    simp only [swap, hstep]
    rw [if_neg (by simp [hca2]), if_neg (by simp [hcb2]),
      if_neg hab, hinv]
  refine ⟨?_, hsw1, by rw [hla, hb], by rw [hlb, ha],
    fun k hka hkb => lookupKey_swapVals_other hka hkb⟩
  rw [hsw1]
  exact hsw2

/-- Claim C8 counterexample: the pair `(A, B) = ("foo", "foo")` is present
in `swapDupWorker`'s registry, yet executing its swap step (even once)
panics in `get_many_mut(..).unwrap()` rather than restoring the registry,
refuting the claim for non-distinct pairs. -/
theorem c8_counterexample :
    swapDupWorker.steps[0]? = some (.swap "foo" "foo") ∧
    containsKey swapDupWorker.buffers "foo" = true ∧
    ((swap swapDupWorker 0).bind (fun w1 => swap w1 0))
      = .error (.Panic "get_many_mut on overlapping keys") := by
  decide

/-- Claim C8 witness: the amended theorem on two distinct buffers. -/
theorem c8_witness :
    ((swap swapPairWorker 0).bind (fun w1 => swap w1 0))
      = .ok swapPairWorker ∧
    swap swapPairWorker 0 = .ok { swapPairWorker with
      buffers := swapVals swapPairWorker.buffers "x" "y" } :=
  ⟨(c8_swap_involution (w := swapPairWorker) (i := 0) (a := "x")
      (b := "y") (x := ⟨0, [1]⟩) (y := ⟨1, [2]⟩) (by decide) (by decide)
      (by decide) (by decide) (by decide)).1,
   (c8_swap_involution (w := swapPairWorker) (i := 0) (a := "x")
      (b := "y") (x := ⟨0, [1]⟩) (y := ⟨1, [2]⟩) (by decide) (by decide)
      (by decide) (by decide) (by decide)).2.1⟩

/-- Claim C9 (amended): every read operation fails with
`StagingBufferNotFound` exactly when **no staging-buffer entry** exists
under the target name — the `mapped` flag is not consulted (so the claim's
"no *mapped* staging buffer exists" is too strong) — and when an entry
exists the read returns its bytes without inspecting the worker state, so
an unsynchronized reader gets stale bytes rather than an error. -/
theorem c9_read_requires_only_presence {β : Type}
    (w : AppComputeWorker) (target : String)
    (decode : List Nat → β) (decodeVec : List Nat → List β) :
    (try_read_raw w target
        = .error (.StagingBufferNotFound target) ↔
      lookupKey w.staging_buffers target = none) ∧
    (∀ sb, lookupKey w.staging_buffers target = some sb →
      try_read_raw w target = .ok sb.buffer.data) ∧
    (∀ s, try_read_raw { w with state := s } target
      = try_read_raw w target) ∧
    (try_read w decode target
        = .error (.StagingBufferNotFound target) ↔
      lookupKey w.staging_buffers target = none) ∧
    (try_read_vec w decodeVec target
        = .error (.StagingBufferNotFound target) ↔
      lookupKey w.staging_buffers target = none) ∧
    (read_raw w target = none ↔
      lookupKey w.staging_buffers target = none) := by
  refine ⟨?_, ?_, ?_, ?_, ?_, ?_⟩
  · cases hl : lookupKey w.staging_buffers target <;>
      simp [try_read_raw, hl]
  · intro sb hsb
    simp [try_read_raw, hsb]
  · intro s
    rfl
  · cases hl : lookupKey w.staging_buffers target <;>
      simp [try_read, try_read_raw, hl, Except.map]
  · cases hl : lookupKey w.staging_buffers target <;>
      simp [try_read_vec, try_read_raw, hl, Except.map]
  · cases hl : lookupKey w.staging_buffers target <;>
      simp [read_raw, try_read_raw, hl, Except.toOption]

/-- Claim C9 counterexample: `unmappedWorker` has **no mapped** staging
buffer for `"foo"` (its only entry has `mapped = false`), yet
`try_read_raw` does not fail with `StagingBufferNotFound` — it returns the
entry's bytes — refuting the claimed "fails ... if and only if no mapped
staging buffer exists". -/
theorem c9_counterexample :
    lookupKey unmappedWorker.staging_buffers "foo"
      = some ⟨false, ⟨3, [9]⟩⟩ ∧
    unmappedWorker.staging_buffers.countP (fun kv => kv.2.mapped) = 0 ∧
    try_read_raw unmappedWorker "foo" = .ok [9] ∧
    try_read_raw unmappedWorker "foo"
      ≠ .error (.StagingBufferNotFound "foo") := by
  decide

/-- Claim C9 witness: the amended theorem read on the present (unmapped)
staging buffer. -/
theorem c9_witness :
    lookupKey unmappedWorker.staging_buffers "foo"
      = some ⟨false, ⟨3, [9]⟩⟩ ∧
    try_read_raw unmappedWorker "foo"
      = .ok (StagingBuffer.mk false ⟨3, [9]⟩).buffer.data :=
  ⟨by decide,
   (c9_read_requires_only_presence unmappedWorker "foo" id
      (fun l => [l])).2.1 ⟨false, ⟨3, [9]⟩⟩ (by decide)⟩

/-- Claim C2 (amended): `set_dispatch_size::<S>` targets the **first**
(earliest-declared) `ComputePass` step referencing `S` — not the most
recent one — replacing only that step's dispatch size (binding list and
shader identity kept, all other steps and worker fields unchanged); a
subsequent dispatch of the modified step records the new size; if no step
references `S` the call panics. -/
theorem c2_set_dispatch_size_first_match (w : AppComputeWorker)
    (path : String) (d : Nat × Nat × Nat) :
    ((∀ s ∈ w.steps, isPassFor path s = false) →
      set_dispatch_size w path d = none) ∧
    (∀ w', set_dispatch_size w path d = some w' →
      ∃ i cp, w.steps[i]? = some (.computePass cp) ∧
        cp.shader_type_path = path ∧
        (∀ j s, j < i → w.steps[j]? = some s →
          isPassFor path s = false) ∧
        w' = { w with steps := w.steps.set i (.computePass { cp with dispatch_size := d }) } ∧
        (∀ w'', dispatch w' i = .ok w'' →
          ∃ p en e, w''.command_encoder
            = some (e ++ [.dispatch p en d]))) := by
  constructor
  · intro hall
    unfold set_dispatch_size
    rw [(findPos_none_iff _ _).mpr hall]
  · intro w' h
    unfold set_dispatch_size at h
    cases hf : findPos (isPassFor path) w.steps with
    | none =>
      rw [hf] at h
      exact Option.noConfusion h
    | some i =>
      rw [hf] at h
      obtain ⟨s, hs, hps, hbefore⟩ := findPos_some_spec _ _ i hf
      cases hcase : s with
      | swap a b =>
        rw [hcase] at hps
        simp [isPassFor] at hps
      | computePass cp =>
        rw [hcase] at hs
        have h2 : (match w.steps[i]? with
          | some (Step.computePass cp) => some { w with steps := w.steps.set i (Step.computePass { cp with dispatch_size := d }) }
          | some (Step.swap _ _) => none
          | none => none) = some w' := h
        rw [hs] at h2
        have h' : some { w with steps := w.steps.set i (.computePass { cp with dispatch_size := d }) } = some w' := h2
        have hw' := (Option.some.inj h').symm
        refine ⟨i, cp, hs, ?_, ?_, hw', ?_⟩
        · rw [hcase] at hps
          simpa [isPassFor] using hps
        · intro j s' hj hjs
          exact hbefore j s' hj hjs
        · intro w'' hd
          obtain ⟨cp2, en, p, e, hstep2, _, _, _, hencw, _⟩ :=
            dispatch_ok hd
          have hi : i < w.steps.length := (List.getElem?_eq_some.mp hs).1
          have hw'i : w'.steps[i]?
              = some (.computePass { cp with dispatch_size := d }) := by
            rw [hw']
            exact List.getElem?_set_eq_of_lt _ hi
          rw [hw'i] at hstep2
          have hcp2 : ComputePass.mk d cp.vars cp.shader_type_path
              = cp2 := Step.computePass.inj (Option.some.inj hstep2)
          refine ⟨p, en, e, ?_⟩
          rw [hencw, ← hcp2]

/-- Claim C2 counterexample: `samePathWorker` declares two passes for
shader `"S"`; `set_dispatch_size` rewrites the first one, leaving the
last-declared pass at its old size — refuting "mutates the most recent
(last-declared) ComputePass step referencing S". -/
theorem c2_counterexample :
    set_dispatch_size samePathWorker "S" (5, 5, 5)
      = some samePathUpdated ∧
    samePathUpdated.steps
      = [.computePass ⟨(5, 5, 5), [], "S"⟩,
         .computePass ⟨(2, 2, 2), [], "S"⟩] ∧
    samePathUpdated.steps
      ≠ [.computePass ⟨(1, 1, 1), [], "S"⟩,
         .computePass ⟨(5, 5, 5), [], "S"⟩] := by
  decide

/-- Claim C2 witness: no-match panic on a worker with no pass for the
shader, and the first-match characterization on `samePathWorker`. -/
theorem c2_witness :
    set_dispatch_size swapPairWorker "S" (9, 9, 9) = none ∧
    (∃ i cp, samePathWorker.steps[i]? = some (.computePass cp) ∧
      cp.shader_type_path = "S" ∧
      (∀ j s, j < i → samePathWorker.steps[j]? = some s →
        isPassFor "S" s = false) ∧
      samePathUpdated = { samePathWorker with steps := samePathWorker.steps.set i (.computePass { cp with dispatch_size := (5, 5, 5) }) } ∧
      (∀ w'', dispatch samePathUpdated i = .ok w'' →
        ∃ p en e, w''.command_encoder
          = some (e ++ [.dispatch p en (5, 5, 5)]))) :=
  ⟨(c2_set_dispatch_size_first_match swapPairWorker "S" (9, 9, 9)).1
      (by decide),
   (c2_set_dispatch_size_first_match samePathWorker "S" (5, 5, 5)).2
      samePathUpdated (by decide)⟩

/-- Claim C3: a cycle aborted by `PipelineNotReady` makes the tick return
the worker exactly as it stood at the failing step: the abort itself
changes nothing — state (as demoted at tick entry), run mode, staging
buffers and the submission log are those from before the cycle, nothing is
submitted, the encoder has only accumulated (uncommitted) recordings, the
registry keeps exactly the swaps the aborted cycle already executed, and
the worker is still ready to execute so the cycle retries next tick. -/
theorem c3_abort_no_side_effects {w w2 : AppComputeWorker} {g : Bool}
    {enc : List Command}
    (henc : w.command_encoder = some enc)
    (hready : ready_to_execute (demoteFinished w) = true)
    (habort : run_steps (demoteFinished w)
      (List.range (demoteFinished w).steps.length)
      = StepsResult.notReady w2) :
    run_aux w g = some w2 ∧
    w2.state = (demoteFinished w).state ∧
    w2.run_mode = w.run_mode ∧
    w2.staging_buffers = w.staging_buffers ∧
    w2.submissions = w.submissions ∧
    w2.steps = w.steps ∧
    (∃ rec, w2.command_encoder = some (enc ++ rec)) ∧
    (∃ j, w2.buffers = applySwapsOnce (w.steps.take j) w.buffers) ∧
    ready_to_execute w2 = true := by
  obtain ⟨hfsteps, hfbufs, hfstag, hfenc, hfrm, hfsub, _, _, _⟩ :=
    demoteFinished_fields w
  have henc0 : (demoteFinished w).command_encoder = some enc := by
    rw [hfenc, henc]
  have habort' := habort
  rw [List.range_eq_range'] at habort'
  obtain ⟨hsc, hrec, j, hbuf⟩ := run_steps_notReady_spec
    (demoteFinished w).steps.length 0 (demoteFinished w) w2 enc henc0
    (by omega) habort'
  have h0 := (ready_to_execute_iff _).mp hready
  refine ⟨run_aux_abort hready habort, hsc.2.2.1,
    hsc.2.2.2.1.trans hfrm, hsc.2.1.trans hfstag,
    hsc.2.2.2.2.1.trans hfsub, hsc.1.trans hfsteps, hrec, ⟨j, ?_⟩, ?_⟩
  · rw [List.drop_zero] at hbuf
    rw [hfsteps, hfbufs] at hbuf
    exact hbuf
  · rw [ready_to_execute_iff]
    constructor
    · rw [hsc.2.2.1]
      exact h0.1
    · rw [hsc.2.2.2.1]
      exact h0.2

/-- Claim C3 witness: the abort theorem on `abortWorker`, whose swap runs
before the not-ready pass; the aborted tick keeps the swap's exchange and
nothing else. -/
theorem c3_witness :
    abortWorker.command_encoder = some [] ∧
    ready_to_execute (demoteFinished abortWorker) = true ∧
    run_steps (demoteFinished abortWorker)
      (List.range (demoteFinished abortWorker).steps.length)
      = StepsResult.notReady abortedWorker ∧
    (run_aux abortWorker true = some abortedWorker ∧
      abortedWorker.state = (demoteFinished abortWorker).state ∧
      abortedWorker.run_mode = abortWorker.run_mode ∧
      abortedWorker.staging_buffers = abortWorker.staging_buffers ∧
      abortedWorker.submissions = abortWorker.submissions ∧
      abortedWorker.steps = abortWorker.steps ∧
      (∃ rec, abortedWorker.command_encoder = some ([] ++ rec)) ∧
      (∃ j, abortedWorker.buffers
        = applySwapsOnce (abortWorker.steps.take j) abortWorker.buffers) ∧
      ready_to_execute abortedWorker = true) :=
  ⟨rfl, by decide, by decide,
    c3_abort_no_side_effects (g := true) rfl (by decide) (by decide)⟩

/-- Claim C5: an untriggered one-shot worker's tick neither dispatches nor
submits nor moves the worker into `Working` (it only performs the
finished-to-available demotion); `execute()` triggers the flag and is
idempotent — a second call has no further effect; and the tick that
detects a one-shot cycle's completion resets the trigger flag. -/
theorem c5_one_shot_gating (w : AppComputeWorker) (g : Bool) :
    (w.run_mode = RunMode.OneShot false →
      run_aux w g = some (demoteFinished w) ∧
      (demoteFinished w).submissions = w.submissions ∧
      (demoteFinished w).command_encoder = w.command_encoder ∧
      (demoteFinished w).buffers = w.buffers ∧
      (demoteFinished w).run_mode = w.run_mode ∧
      (w.state ≠ WorkerState.Working →
        (demoteFinished w).state ≠ WorkerState.Working)) ∧
    (∀ t, w.run_mode = RunMode.OneShot t →
      execute w = some { w with run_mode := RunMode.OneShot true } ∧
      (execute w).bind execute = execute w) ∧
    (∀ w', w.run_mode = RunMode.OneShot true → run_aux w g = some w' →
      w'.state = WorkerState.FinishedWorking →
      w'.run_mode = RunMode.OneShot false) := by
  obtain ⟨hfsteps, hfbufs, hfstag, hfenc, hfrm, hfsub, _, _, _⟩ :=
    demoteFinished_fields w
  refine ⟨?_, ?_, ?_⟩
  · intro h
    have hdrm : (demoteFinished w).run_mode = RunMode.OneShot false := by
      rw [hfrm, h]
    have hnotready : ready_to_execute (demoteFinished w) = false := by
      simp [ready_to_execute, hdrm]
    rw [run_aux_else hnotready, finishPoll_oneShot_false _ g hdrm]
    refine ⟨rfl, hfsub, hfenc, hfbufs, hfrm, ?_⟩
    intro hnw
    rw [demoteFinished_state]
    split
    · simp
    · exact hnw
  · intro t h
    constructor
    · simp [execute, h]
    · simp [execute, h, Option.bind]
  · intro w' h hrun hfw
    by_cases hr : ready_to_execute (demoteFinished w) = true
    · cases hrs : run_steps (demoteFinished w)
          (List.range (demoteFinished w).steps.length) with
      | panicked =>
        rw [run_aux_panicked hr hrs] at hrun
        exact Option.noConfusion hrun
      | notReady w1 =>
        rw [run_aux_abort hr hrs] at hrun
        have hw1 : w1 = w' := Option.some.inj hrun
        subst hw1
        exfalso
        have hfr := run_steps_frame _ _ _ (Or.inr hrs)
        exact demoteFinished_state_ne w (hfr.2.1.symm.trans hfw)
      | ok w1 =>
        rw [run_aux_ok_path hr hrs] at hrun
        cases hread : read_staging_buffers w1 with
        | error e =>
          rw [hread] at hrun
          exact Option.noConfusion hrun
        | ok w2 =>
          rw [hread] at hrun
          have hrun2 : (match submit w2 with
              | none => none
              | some w3 =>
                some (finishPoll (map_staging_buffers w3) g))
              = some w' := hrun
          cases hsubm : submit w2 with
          | none =>
            rw [hsubm] at hrun2
            exact Option.noConfusion hrun2
          | some w3 =>
            rw [hsubm] at hrun2
            have hw' : w' = finishPoll (map_staging_buffers w3) g :=
              (Option.some.inj hrun2).symm
            have h1 := run_steps_frame _ _ _ (Or.inl hrs)
            have h2 := read_staging_aux_frame w1.staging_buffers w1 w2
              hread
            obtain ⟨enc2, _, hw3⟩ := submit_eq_some hsubm
            have hrm3 : w3.run_mode = RunMode.OneShot true := by
              rw [hw3]
              show w2.run_mode = _
              rw [h2.1, h1.1, hfrm, h]
            cases g with
            | false =>
              exfalso
              rw [finishPoll_false] at hw'
              have hst : w'.state = WorkerState.Working := by
                rw [hw']
                show w3.state = _
                rw [hw3]
              rw [hfw] at hst
              exact WorkerState.noConfusion hst
            | true =>
              have hrmm : (map_staging_buffers w3).run_mode
                  ≠ RunMode.OneShot false := by
                show w3.run_mode ≠ _
                rw [hrm3]
                simp
              rw [finishPoll_true _ hrmm] at hw'
              rw [hw']
              dsimp only
              rw [show (map_staging_buffers w3).run_mode
                = RunMode.OneShot true from hrm3]
    · have hb : ready_to_execute (demoteFinished w) = false :=
        Bool.of_not_eq_true hr
      rw [run_aux_else hb] at hrun
      have hw' : w' = finishPoll (demoteFinished w) g :=
        (Option.some.inj hrun).symm
      cases g with
      | false =>
        exfalso
        rw [finishPoll_false] at hw'
        exact demoteFinished_state_ne w (hw' ▸ hfw)
      | true =>
        have hrmm : (demoteFinished w).run_mode
            ≠ RunMode.OneShot false := by
          rw [hfrm, h]
          simp
        rw [finishPoll_true _ hrmm] at hw'
        rw [hw']
        dsimp only
        rw [show (demoteFinished w).run_mode = RunMode.OneShot true
          from by rw [hfrm, h]]

/-- Claim C5 witness: the gating on an idle untriggered one-shot worker,
the idempotence of `execute`, and the trigger reset after the completed
cycle of a triggered one-shot worker. -/
theorem c5_witness :
    (run_aux oneShotIdle true = some (demoteFinished oneShotIdle) ∧
      (demoteFinished oneShotIdle).submissions
        = oneShotIdle.submissions ∧
      (demoteFinished oneShotIdle).command_encoder
        = oneShotIdle.command_encoder ∧
      (demoteFinished oneShotIdle).buffers = oneShotIdle.buffers ∧
      (demoteFinished oneShotIdle).run_mode = oneShotIdle.run_mode ∧
      (oneShotIdle.state ≠ WorkerState.Working →
        (demoteFinished oneShotIdle).state ≠ WorkerState.Working)) ∧
    (execute oneShotIdle
        = some { oneShotIdle with run_mode := RunMode.OneShot true } ∧
      (execute oneShotIdle).bind execute = execute oneShotIdle) ∧
    oneShotDone.run_mode = RunMode.OneShot false :=
  ⟨(c5_one_shot_gating oneShotIdle true).1 rfl,
   (c5_one_shot_gating oneShotIdle true).2.1 false rfl,
   (c5_one_shot_gating oneShotTriggered true).2.2 oneShotDone rfl
     (by decide) rfl⟩

end AppComputeWorker

/-- Claim C10: for every worker obtained from a builder-call sequence,
every compute-pass step's shader type path has an entry in the worker's
pipeline table (builder `add_pass` registers the cached pipeline id before
pushing the step, and `build` keys the table from exactly those ids), so
`dispatch` can never return the `PipelinesEmpty` error on such a
worker. -/
theorem c10_pipelines_empty_unreachable (ops : List BuilderOp) :
    (∀ cp : ComputePass,
      Step.computePass cp
          ∈ (AppComputeWorkerBuilder.build (applyOps ops)).steps →
      containsKey (AppComputeWorkerBuilder.build
        (applyOps ops)).pipelines cp.shader_type_path = true) ∧
    (∀ i, AppComputeWorker.dispatch
      (AppComputeWorkerBuilder.build (applyOps ops)) i
      ≠ .error Error.PipelinesEmpty) := by
  have hinv := applyOps_inv ops
  have hkeys : ∀ tp,
      containsKey (AppComputeWorkerBuilder.build
        (applyOps ops)).pipelines tp
      = containsKey (applyOps ops).cached_pipeline_ids tp := by
    intro tp
    show containsKey ((applyOps ops).cached_pipeline_ids.map
      fun kv => (kv.1, none)) tp = _
    simp [containsKey, lookupKey_map_pair_none]
  have hpass : ∀ cp : ComputePass,
      Step.computePass cp
          ∈ (AppComputeWorkerBuilder.build (applyOps ops)).steps →
      containsKey (AppComputeWorkerBuilder.build
        (applyOps ops)).pipelines cp.shader_type_path = true := by
    intro cp hmem
    rw [hkeys]
    exact hinv cp hmem
  refine ⟨hpass, ?_⟩
  intro i h
  unfold AppComputeWorker.dispatch at h
  split at h
  · exact Error.noConfusion (Except.error.inj h)
  · exact Error.noConfusion (Except.error.inj h)
  · next cp hstep =>
    split at h
    · next e hent =>
      obtain ⟨v, hv⟩ := AppComputeWorker.buildEntries_error hent
      have he : e = Error.PipelinesEmpty := Except.error.inj h
      rw [he] at hv
      exact Error.noConfusion hv
    · split at h
      · next hpipe =>
        have hmem : Step.computePass cp
            ∈ (AppComputeWorkerBuilder.build (applyOps ops)).steps := by
          obtain ⟨hlt, hget⟩ := List.getElem?_eq_some.mp hstep
          rw [← hget]
          exact List.getElem_mem hlt
        have hc := hpass cp hmem
        rw [containsKey, hpipe] at hc
        simp at hc
      · exact Error.noConfusion (Except.error.inj h)
      · split at h
        · exact Error.noConfusion (Except.error.inj h)
        · exact Except.noConfusion h

/-- Claim C10 witness: the invariant and the unreachability on the sample
builder sequence. -/
theorem c10_witness :
    containsKey (AppComputeWorkerBuilder.build
      (applyOps sampleOps)).pipelines "S" = true ∧
    AppComputeWorker.dispatch
      (AppComputeWorkerBuilder.build (applyOps sampleOps)) 0
      ≠ .error Error.PipelinesEmpty :=
  ⟨(c10_pipelines_empty_unreachable sampleOps).1
      ⟨(1, 1, 1), ["buf", "out"], "S"⟩ (by decide),
   (c10_pipelines_empty_unreachable sampleOps).2 0⟩

end BevyAppCompute
